import Mathlib

/-!
# Verification of the DAT recipe–pipeline association store

Shallow embedding of `dat/vistrail_data.py`: the annotation codec
(`_build_annotation_*` / `_read_annotation_*`), the per-vistrail store
`VistrailData` (variable registry + pipeline index) and the
`VistrailManager` document registry.

Python strings are modelled as `List Char`; Python dicts as association
lists with dict-assignment (`insertA`) and `del` (`eraseA`) semantics.
Notifications, warnings and calls to external collaborators are recorded
in a trace; each trace entry carries a snapshot of the store state at the
moment it was emitted, so that temporal (mutate-then-notify) properties
can be stated.
-/

set_option maxRecDepth 10000

/-- Python strings, modelled as lists of characters. -/
abbrev Str := List Char

/-- Python `s.split(sep)` for a one-character separator: splits on every
occurrence; the empty string splits to `[""]`. -/
def splitOnC (sep : Char) : Str → List Str
  | [] => [[]]
  | c :: rest =>
    let r := splitOnC sep rest
    if c = sep then [] :: r
    else
      match r with
      | [] => [[c]]
      | s :: ss => (c :: s) :: ss

/-- Python `sep.join(parts)` for a one-character separator. -/
def joinSep (sep : Char) : List Str → Str
  | [] => []
  | [s] => s
  | s :: rest => s ++ sep :: joinSep sep rest

theorem splitOnC_ne_nil (sep : Char) (s : Str) : splitOnC sep s ≠ [] := by
  induction s with
  | nil => simp [splitOnC]
  | cons c rest ih =>
    simp only [splitOnC]
    split
    · simp
    · match h : splitOnC sep rest with
      | [] => simp
      | s :: ss => simp

theorem splitOnC_append_sep (sep : Char) (s t : Str) (hs : sep ∉ s) :
    splitOnC sep (s ++ sep :: t) = s :: splitOnC sep t := by
  induction s with
  | nil => simp [splitOnC]
  | cons c s' ih =>
    have hc : c ≠ sep := by
      intro h; exact hs (by simp [h])
    have hs' : sep ∉ s' := fun h => hs (List.mem_cons_of_mem _ h)
    simp only [List.cons_append, splitOnC, if_neg hc, List.append_eq, ih hs']

theorem splitOnC_no_sep (sep : Char) (s : Str) (hs : sep ∉ s) :
    splitOnC sep s = [s] := by
  induction s with
  | nil => rfl
  | cons c s' ih =>
    have hc : c ≠ sep := by
      intro h; exact hs (by simp [h])
    have hs' : sep ∉ s' := fun h => hs (List.mem_cons_of_mem _ h)
    simp only [splitOnC, if_neg hc, ih hs']

theorem splitOnC_joinSep (sep : Char) (parts : List Str) (hne : parts ≠ [])
    (h : ∀ p ∈ parts, sep ∉ p) :
    splitOnC sep (joinSep sep parts) = parts := by
  induction parts with
  | nil => exact absurd rfl hne
  | cons p ps ih =>
    match ps with
    | [] => exact splitOnC_no_sep sep p (h p (by simp))
    | q :: qs =>
      have hp : sep ∉ p := h p (by simp)
      have hrest : ∀ r ∈ q :: qs, sep ∉ r := fun r hr => h r (by simp [hr])
      show splitOnC sep (p ++ sep :: joinSep sep (q :: qs)) = p :: q :: qs
      rw [splitOnC_append_sep sep p _ hp, ih (by simp) hrest]

/-- Decimal digit character for a digit value. -/
def digitChar : Nat → Char
  | 0 => '0' | 1 => '1' | 2 => '2' | 3 => '3' | 4 => '4'
  | 5 => '5' | 6 => '6' | 7 => '7' | 8 => '8' | 9 => '9'
  | _ => '*'

/-- Value of a decimal digit character (`none` for non-digits), as accepted
by Python's `int()`. -/
def digitVal (c : Char) : Option Nat :=
  if '0' ≤ c ∧ c ≤ '9' then some (c.toNat - 48) else none

theorem digitVal_digitChar {d : Nat} (hd : d < 10) :
    digitVal (digitChar d) = some d := by
  interval_cases d <;> decide

theorem digitChar_not_special {d : Nat} (hd : d < 10) :
    digitChar d ∉ ([';', '=', ',', ':', '-'] : List Char) := by
  interval_cases d <;> decide

/-- Digit emission loop, most significant digit first; `fuel` bounds the
recursion depth (`n` itself suffices since `n / 10` decreases). -/
def natToStrRec : Nat → Nat → Str
  | 0, _ => []
  | fuel + 1, n => if n = 0 then [] else natToStrRec fuel (n / 10) ++ [digitChar (n % 10)]

/-- Decimal representation of a natural number (Python `'%d' % n`, `n ≥ 0`). -/
def natToStr (n : Nat) : Str :=
  if n = 0 then ['0'] else natToStrRec n n

theorem natToStrRec_eq_digits : ∀ fuel n, n ≤ fuel →
    natToStrRec fuel n = (Nat.digits 10 n).reverse.map digitChar := by
  intro fuel
  induction fuel with
  | zero =>
    intro n hn
    interval_cases n
    simp [natToStrRec]
  | succ fuel ih =>
    intro n hn
    by_cases h0 : n = 0
    · subst h0; simp [natToStrRec]
    · have hpos : 0 < n := Nat.pos_of_ne_zero h0
      have hdiv : n / 10 ≤ fuel := by omega
      simp only [natToStrRec, if_neg h0]
      rw [Nat.digits_def' (by norm_num : (1:ℕ) < 10) hpos, ih (n / 10) hdiv]
      simp

theorem natToStr_eq_digits (n : Nat) :
    natToStr n = if n = 0 then ['0'] else (Nat.digits 10 n).reverse.map digitChar := by
  rw [natToStr]
  by_cases h0 : n = 0
  · simp [h0]
  · rw [if_neg h0, if_neg h0, natToStrRec_eq_digits n n le_rfl]

/-- Decimal representation of an integer (Python `'%d' % n`). -/
def intToStr (n : Int) : Str :=
  if n < 0 then '-' :: natToStr n.natAbs else natToStr n.natAbs

/-- Accumulating decimal parser over a digit string. -/
def parseDigitsAcc : Str → Nat → Option Nat
  | [], acc => some acc
  | c :: cs, acc =>
    match digitVal c with
    | some d => parseDigitsAcc cs (acc * 10 + d)
    | none => none

/-- Python `int(s)` on an unsigned decimal string: nonempty, all digits. -/
def parseNatDigits : Str → Option Nat
  | [] => none
  | s => parseDigitsAcc s 0

/-- Python `int(s)`: optional leading `'-'` then a nonempty digit string.
(Python also tolerates surrounding whitespace and a `'+'` sign; no encoded
annotation ever contains those, so they are not modelled.) -/
def parseInt : Str → Option Int
  | '-' :: rest => (parseNatDigits rest).map (fun n => -(n : Int))
  | s => (parseNatDigits s).map (fun n => (n : Int))

theorem parseDigitsAcc_map (ds : List Nat) (h : ∀ d ∈ ds, d < 10) :
    ∀ acc, parseDigitsAcc (ds.map digitChar) acc =
      some (ds.foldl (fun a d => a * 10 + d) acc) := by
  induction ds with
  | nil => intro acc; rfl
  | cons d ds ih =>
    intro acc
    have hd : d < 10 := h d (by simp)
    have hds : ∀ e ∈ ds, e < 10 := fun e he => h e (by simp [he])
    simp only [List.map_cons, parseDigitsAcc, digitVal_digitChar hd, List.foldl_cons]
    exact ih hds (acc * 10 + d)

theorem foldr_eq_ofDigits (l : List Nat) :
    l.foldr (fun d a => a * 10 + d) 0 = Nat.ofDigits 10 l := by
  induction l with
  | nil => rfl
  | cons d l ih =>
    simp only [List.foldr_cons, ih, Nat.ofDigits_cons]
    omega

theorem parseNatDigits_natToStr (n : Nat) : parseNatDigits (natToStr n) = some n := by
  by_cases h0 : n = 0
  · subst h0; rfl
  · have hne : Nat.digits 10 n ≠ [] := Nat.digits_ne_nil_iff_ne_zero.mpr h0
    have hlt : ∀ d ∈ (Nat.digits 10 n).reverse, d < 10 := by
      intro d hd
      exact Nat.digits_lt_base (by norm_num) (List.mem_reverse.mp hd)
    have hne' : (Nat.digits 10 n).reverse.map digitChar ≠ [] := by
      simp [hne]
    rw [natToStr_eq_digits, if_neg h0]
    rw [parseNatDigits.eq_def]
    split
    · exact absurd (by assumption) hne'
    · rw [parseDigitsAcc_map _ hlt 0, List.foldl_reverse]
      congr 1
      calc (Nat.digits 10 n).foldr (fun d a => a * 10 + d) 0
          = Nat.ofDigits 10 (Nat.digits 10 n) := foldr_eq_ofDigits _
        _ = n := Nat.ofDigits_digits 10 n

theorem natToStr_head_digit (n : Nat) :
    ∃ d, d < 10 ∧ ∃ rest, natToStr n = digitChar d :: rest := by
  by_cases h0 : n = 0
  · exact ⟨0, by norm_num, [], by rw [h0]; rfl⟩
  · have hne : Nat.digits 10 n ≠ [] := Nat.digits_ne_nil_iff_ne_zero.mpr h0
    rw [natToStr_eq_digits, if_neg h0]
    match hrev : (Nat.digits 10 n).reverse with
    | [] => exact absurd (by simpa using congrArg List.reverse hrev) hne
    | d :: ds =>
      refine ⟨d, ?_, ds.map digitChar, rfl⟩
      have hmem : d ∈ (Nat.digits 10 n).reverse := by
        rw [hrev]; exact List.mem_cons_self d ds
      exact Nat.digits_lt_base (by norm_num) (List.mem_reverse.mp hmem)

theorem parseInt_intToStr (n : Int) : parseInt (intToStr n) = some n := by
  rcases natToStr_head_digit n.natAbs with ⟨d, hd, rest, hrep⟩
  by_cases hneg : n < 0
  · rw [intToStr, if_pos hneg]
    show (parseNatDigits (natToStr n.natAbs)).map (fun m => -(m : Int)) = some n
    rw [parseNatDigits_natToStr]
    exact congrArg some (show -(n.natAbs : Int) = n by omega)
  · rw [intToStr, if_neg hneg, hrep]
    have hnd : digitChar d ≠ '-' := by
      have := digitChar_not_special hd
      simp only [List.mem_cons, List.mem_singleton] at this
      tauto
    rw [parseInt.eq_def]
    split
    · rename_i heq
      rw [List.cons.injEq] at heq
      exact absurd heq.1 hnd
    · rw [← hrep, parseNatDigits_natToStr]
      exact congrArg some (show ((n.natAbs : Nat) : Int) = n by omega)

theorem mem_natToStr_digit {c : Char} {n : Nat} (hc : c ∈ natToStr n) :
    ∃ d, d < 10 ∧ c = digitChar d := by
  rw [natToStr_eq_digits] at hc
  split at hc
  · exact ⟨0, by norm_num, by simpa using hc⟩
  · rcases List.mem_map.mp hc with ⟨d, hd, hcd⟩
    exact ⟨d, Nat.digits_lt_base (by norm_num) (List.mem_reverse.mp hd), hcd.symm⟩

theorem mem_intToStr_not_special {c : Char} {n : Int} (hc : c ∈ intToStr n)
    (hs : c ∈ ([';', '=', ',', ':'] : List Char)) : False := by
  rw [intToStr] at hc
  have aux : c ∈ natToStr n.natAbs → False := by
    intro h
    rcases mem_natToStr_digit h with ⟨d, hd, rfl⟩
    have := digitChar_not_special hd
    simp only [List.mem_cons, List.mem_singleton] at this hs
    tauto
  split at hc
  · rcases List.mem_cons.mp hc with rfl | h
    · simp only [List.mem_cons, List.mem_singleton] at hs
      rcases hs with h | h | h | h <;> exact absurd h (by decide)
    · exact aux h
  · exact aux hc

/-! ## Python dicts as association lists -/

/-- Python `d.get(k)` / `d[k]` lookup: first entry with the given key. -/
def lookupA {α β : Type} [DecidableEq α] (k : α) : List (α × β) → Option β
  | [] => none
  | (k', v) :: rest => if k' = k then some v else lookupA k rest

/-- Python `d[k] = v`: replace the entry if the key is present, else append. -/
def insertA {α β : Type} [DecidableEq α] (k : α) (v : β) : List (α × β) → List (α × β)
  | [] => [(k, v)]
  | (k', v') :: rest => if k' = k then (k, v) :: rest else (k', v') :: insertA k v rest

/-- Python `del d[k]` (on a key known to be present). -/
def eraseA {α β : Type} [DecidableEq α] (k : α) (m : List (α × β)) : List (α × β) :=
  m.filter (fun p => p.1 ≠ k)

theorem lookupA_insertA {α β : Type} [DecidableEq α] (k k' : α) (v : β)
    (m : List (α × β)) :
    lookupA k' (insertA k v m) = if k = k' then some v else lookupA k' m := by
  induction m with
  | nil => simp [insertA, lookupA]
  | cons p rest ih =>
    obtain ⟨pk, pv⟩ := p
    by_cases hpk : pk = k
    · subst hpk
      simp only [insertA, if_pos rfl, lookupA]
      by_cases hk : pk = k' <;> simp [hk]
    · simp only [insertA, if_neg hpk, lookupA]
      by_cases hk : pk = k'
      · subst hk
        have : ¬ k = pk := fun h => hpk h.symm
        simp [this]
      · simp [hk, ih]

theorem eraseA_cons {α β : Type} [DecidableEq α] (k pk : α) (pv : β)
    (rest : List (α × β)) :
    eraseA k ((pk, pv) :: rest) =
      if pk = k then eraseA k rest else (pk, pv) :: eraseA k rest := by
  by_cases h : pk = k <;> simp [eraseA, List.filter_cons, h]

theorem lookupA_eraseA {α β : Type} [DecidableEq α] (k k' : α) (m : List (α × β)) :
    lookupA k' (eraseA k m) = if k = k' then none else lookupA k' m := by
  induction m with
  | nil => simp [eraseA, lookupA]
  | cons p rest ih =>
    obtain ⟨pk, pv⟩ := p
    rw [eraseA_cons]
    by_cases hpk : pk = k
    · subst hpk
      rw [if_pos rfl, ih]
      by_cases hk : pk = k'
      · rw [if_pos hk, if_pos hk]
      · rw [if_neg hk, if_neg hk]
        simp [lookupA, hk]
    · rw [if_neg hpk]
      simp only [lookupA]
      by_cases hk : pk = k'
      · subst hk
        have hkk : ¬ k = pk := fun h => hpk h.symm
        rw [if_pos rfl, if_neg hkk]
        simp
      · rw [if_neg hk, ih]
        by_cases h2 : k = k' <;> simp [h2, lookupA, hk]

theorem lookupA_some_mem {α β : Type} [DecidableEq α] {k : α} {v : β}
    {m : List (α × β)} (h : lookupA k m = some v) : (k, v) ∈ m := by
  induction m with
  | nil => simp [lookupA] at h
  | cons p rest ih =>
    obtain ⟨pk, pv⟩ := p
    simp only [lookupA] at h
    split at h
    · rename_i heq
      obtain rfl := heq
      obtain rfl : pv = v := by injection h
      exact List.mem_cons_self _ _
    · exact List.mem_cons_of_mem _ (ih h)

theorem lookupA_isSome_iff_mem_keys {α β : Type} [DecidableEq α] (k : α)
    (m : List (α × β)) : (lookupA k m).isSome = true ↔ k ∈ m.map Prod.fst := by
  induction m with
  | nil => simp [lookupA]
  | cons p rest ih =>
    obtain ⟨pk, pv⟩ := p
    simp only [lookupA, List.map_cons, List.mem_cons]
    by_cases hk : pk = k
    · subst hk; simp
    · simp only [if_neg hk, ih]
      constructor
      · intro h; exact Or.inr h
      · rintro (h | h)
        · exact absurd h.symm hk
        · exact h

/-- Folding `del` over a list of keys is filtering those keys out. -/
theorem foldl_eraseA_eq_filter {α β : Type} [DecidableEq α] (ks : List α) :
    ∀ m : List (α × β),
      ks.foldl (fun m' k => eraseA k m') m = m.filter (fun p => p.1 ∉ ks) := by
  induction ks with
  | nil => intro m; simp
  | cons k ks ih =>
    intro m
    rw [List.foldl_cons, ih (eraseA k m), eraseA, List.filter_filter]
    congr 1
    funext p
    by_cases h1 : p.1 = k <;> by_cases h2 : p.1 ∈ ks <;> simp [h1, h2]

theorem lookupA_filter_keys {α β : Type} [DecidableEq α] (k : α)
    (q : α → Bool) (m : List (α × β)) :
    lookupA k (m.filter (fun p => q p.1)) =
      if q k then lookupA k m else none := by
  induction m with
  | nil => simp [lookupA]
  | cons p rest ih =>
    obtain ⟨pk, pv⟩ := p
    simp only [List.filter_cons]
    by_cases hq : q pk
    · rw [if_pos hq]
      simp only [lookupA]
      by_cases hk : pk = k
      · subst hk; simp [hq]
      · simp [hk, ih]
    · rw [if_neg (by simpa using hq)]
      rw [ih]
      simp only [lookupA]
      by_cases hk : pk = k
      · subst hk
        simp [hq]
      · simp [hk]

/-! ## Data model

`DATRecipe`, `PipelineInformation` and the variable objects are imported
by `vistrail_data.py` from modules that are not part of the analysed
sources; they are modelled from the spec (§3 of the design document). -/

/-- A plot template; only its `name` field is used by the store. -/
structure Plot where
  name : Str
deriving DecidableEq

/-- Modelled from the spec: `Variable.VariableInformation` (defined in
`dat/vistrails_interface.py`, which is not among the analysed sources): a
variable has a unique name and a type tag; the backing computation is an
external handle and carries no information relevant to the store. -/
structure VarInfo where
  name : Str
  vtype : Str
deriving DecidableEq

/-- Modelled from the spec: `DATRecipe` (defined in `dat/__init__.py`,
which is not among the analysed sources): a plot template plus a mapping
from parameter names to variables. The `Option` in the codomain reflects
that `_read_annotation_recipe` stores the result of a `.get` lookup,
which can be `None`. -/
structure DATRecipe where
  plot : Plot
  «variables» : List (Str × Option VarInfo)
deriving DecidableEq

/-- A port map: parameter name to list of `(module id, port name)`. -/
abbrev PortMap := List (Str × List (Int × Str))

/-- A var map: parameter name to list of connection ids. -/
abbrev VarMap := List (Str × List Int)

/-- Modelled from the spec: `PipelineInformation` (defined in
`dat/__init__.py`, not among the analysed sources): one record per
pipeline version. `__init__` constructs it from `(version, recipe)` and
later assigns `port_map` / `varmap`; `created_pipeline` reads `port_map`
and `var_map`. The `varmap` field (sic, set by the load path) is kept
distinct from `var_map` (read by the save path), as in the source. -/
structure PipelineInformation where
  version : Int
  recipe : DATRecipe
  port_map : PortMap := []
  var_map : VarMap := []
  varmap : VarMap := []
deriving DecidableEq

/-! ## Annotation codec -/

/-- Python `variable.name`, total-ized: Python would raise `AttributeError` on an
unresolved (`None`) binding; such a binding renders as the empty name
here. No claim exercises this case on the build path. -/
def varNameTotal : Option VarInfo → Str
  | some v => v.name
  | none => []

/-- Source `VistrailData._build_annotation_recipe`. -/
def _build_annotation_recipe (recipe : DATRecipe) : Str :=
  recipe.plot.name ++
    (recipe.variables.map (fun pv => ';' :: (pv.1 ++ '=' :: varNameTotal pv.2))).flatten

/-- Source `VistrailData._build_annotation_portmap`. -/
def _build_annotation_portmap (port_map : PortMap) : Str :=
  joinSep ';' (port_map.map (fun pp =>
    pp.1 ++ '=' :: joinSep ',' (pp.2.map (fun mp => intToStr mp.1 ++ ':' :: mp.2))))

/-- Source `VistrailData._build_annotation_varmap`. -/
def _build_annotation_varmap (var_map : VarMap) : Str :=
  joinSep ';' (var_map.map (fun pc =>
    pc.1 ++ '=' :: joinSep ',' (pc.2.map intToStr)))

/-- One `MODID:PORT` element: `port.split(':')` must yield exactly two
pieces, and the first must parse as an integer. -/
def parsePort (port : Str) : Option (Int × Str) :=
  match splitOnC ':' port with
  | [a, b] => (parseInt a).map (fun i => (i, b))
  | _ => none

/-- The per-parameter port list of `_read_annotation_portmap`. -/
def parsePortList : List Str → Option (List (Int × Str))
  | [] => some []
  | p :: ps =>
    match parsePort p, parsePortList ps with
    | some x, some xs => some (x :: xs)
    | _, _ => none

/-- The segment loop of `_read_annotation_portmap`: each segment splits on
`'='` into exactly two pieces; an empty right-hand side maps the parameter
to `[]`; otherwise the right-hand side is a comma-separated port list. -/
def readPortmapGo : List Str → PortMap → Option PortMap
  | [], acc => some acc
  | mapping :: rest, acc =>
    match splitOnC '=' mapping with
    | [param, ports] =>
      if ports = [] then readPortmapGo rest (insertA param [] acc)
      else
        match parsePortList (splitOnC ',' ports) with
        | some portlist => readPortmapGo rest (insertA param portlist acc)
        | none => none
    | _ => none

/-- Source `VistrailData._read_annotation_portmap`. -/
def _read_annotation_portmap (value : Str) : Option PortMap :=
  readPortmapGo (splitOnC ';' value) []

/-- The per-parameter connection list of `_read_annotation_varmap`. -/
def parseConnList : List Str → Option (List Int)
  | [] => some []
  | p :: ps =>
    match parseInt p, parseConnList ps with
    | some x, some xs => some (x :: xs)
    | _, _ => none

/-- The segment loop of `_read_annotation_varmap`. -/
def readVarmapGo : List Str → VarMap → Option VarMap
  | [], acc => some acc
  | mapping :: rest, acc =>
    match splitOnC '=' mapping with
    | [param, conns] =>
      if conns = [] then readVarmapGo rest (insertA param [] acc)
      else
        match parseConnList (splitOnC ',' conns) with
        | some conn_list => readVarmapGo rest (insertA param conn_list acc)
        | none => none
    | _ => none

/-- Source `VistrailData._read_annotation_varmap`. -/
def _read_annotation_varmap (value : Str) : Option VarMap :=
  readVarmapGo (splitOnC ';' value) []

/-- Modelled from the spec: `GlobalManager.get_plot` (in
`dat/global_data.py`, not among the analysed sources) resolves a template
id against the table of known plot templates; an unknown id raises
`KeyError`. The table is passed explicitly as the list of known names. -/
def get_plot (plots : List Str) (name : Str) : Option Plot :=
  if name ∈ plots then some ⟨name⟩ else none

/-- Source `VistrailData.get_variable`: a plain `.get` on the variable table —
it returns `None` for an unknown name rather than raising. -/
def get_variable («variables» : List (Str × VarInfo)) (varname : Str) : Option VarInfo :=
  lookupA varname «variables»

/-- The assignment loop of `_read_annotation_recipe`: each remaining
segment splits on `'='` into exactly two pieces (otherwise the tuple
unpacking raises `ValueError`, caught by the caller); the right-hand side
is resolved with `get_variable` and stored as-is, even when unresolved. -/
def readRecipeGo («variables» : List (Str × VarInfo)) :
    List Str → List (Str × Option VarInfo) → Option (List (Str × Option VarInfo))
  | [], acc => some acc
  | assignment :: rest, acc =>
    match splitOnC '=' assignment with
    | [param, varname] =>
      readRecipeGo «variables» rest (insertA param (get_variable «variables» varname) acc)
    | _ => none

/-- Source `VistrailData._read_annotation_recipe`: the first `';'`-segment is the
plot name (unknown plot ⇒ `KeyError` ⇒ `None`); the rest are
`param=varname` assignments. -/
def _read_annotation_recipe (plots : List Str) («variables» : List (Str × VarInfo))
    (value : Str) : Option DATRecipe :=
  match splitOnC ';' value with
  | [] => none
  | v0 :: rest =>
    match get_plot plots v0 with
    | none => none
    | some plot => (readRecipeGo «variables» rest []).map (fun vars => ⟨plot, vars⟩)


/-! ## The `VistrailData` store

State of one `VistrailData` object plus the host document's annotation
table (`controller.vistrail`'s action annotations, keyed by
`(version, key)`).  Mutating operations return the new state together
with a trace of notifications, warnings, and external-collaborator calls;
every trace entry carries a snapshot of the state at the instant it was
emitted. -/

/-- Cell identifiers (`CellInformation`) are opaque presentation-slot
handles; only their identity matters to the store. -/
abbrev CellInfo := Nat

/-- Source `VistrailData._RECIPE_KEY`. -/
def _RECIPE_KEY : Str := "dat-recipe".data

/-- Source `VistrailData._PORTMAP_KEY`. -/
def _PORTMAP_KEY : Str := "dat-ports".data

/-- Source `VistrailData._VARMAP_KEY`. -/
def _VARMAP_KEY : Str := "dat-vars".data

/-- State of one `VistrailData` plus its document's annotation table. -/
structure VState where
  _variables : List (Str × VarInfo)
  cell_to_version : List (CellInfo × Int)
  version_to_pipeline : List (Int × PipelineInformation)
  cell_to_pipeline : List (CellInfo × PipelineInformation)
  annotations : List ((Int × Str) × Str)
deriving DecidableEq

/-- Source `controller.vistrail.set_action_annotation(version, key, value)`:
`None` clears the annotation, anything else sets it. -/
def set_action_annotation (version : Int) (key : Str) (value : Option Str)
    (ann : List ((Int × Str) × Str)) : List ((Int × Str) × Str) :=
  match value with
  | none => eraseA (version, key) ann
  | some v => insertA (version, key) v ann

/-- Observable events: the two notifications, the two warnings issued by
the store's mutators, and calls out to external collaborators. -/
inductive Event
  | notifAdded (varname : Str) (renamed_from : Option Str)
  | notifRemoved (varname : Str) (renamed_to : Option Str)
  | warnUsedPipelines (varname : Str) (count : Nat)
  | warnStaleOverwrite (version : Int)
  | extPerformOps (varname : Str)
  | extVariableRemove (varname : Str)
  | extVariableRename (new_varname : Str)
deriving DecidableEq

/-- Is the event one of the two variable-list notifications
(`dat_new_variable` / `dat_removed_variable`)? -/
def Event.isNotif : Event → Bool
  | .notifAdded _ _ => true
  | .notifRemoved _ _ => true
  | _ => false

/-- A trace entry: the event and the state when it was emitted. -/
abbrev TEvent := Event × VState

/-- Python exceptions that can escape the modelled operations. -/
inductive PyErr
  | keyError
  | valueError
deriving DecidableEq

/-- Result of an operation: final state, trace, and the exception that
escaped, if any (the state and trace are those at the moment of raising). -/
structure RunResult where
  st : VState
  trace : List TEvent
  err : Option PyErr := none
deriving DecidableEq

/-- Does `recipe` reference a variable named `varname`?  Source:
`any(v.name == varname for v in pipeline.recipe.variables.itervalues())`.
(Python would raise `AttributeError` when it meets an unresolved `None`
binding; here such a binding simply does not match.) -/
def recipeRefers (recipe : DATRecipe) (varname : Str) : Bool :=
  recipe.variables.any (fun pv =>
    match pv.2 with
    | some v => decide (v.name = varname)
    | none => false)

/-- Source `VistrailData._add_variable`: on a rename, first rewrite the persisted
recipe annotation of every pipeline whose recipe references the (new)
name, then send the `dat_new_variable` notification. -/
def _add_variable (st : VState) (varname : Str) (renamed_from : Option Str) :
    VState × List TEvent :=
  let st1 :=
    match renamed_from with
    | some _ =>
      { st with annotations :=
          st.version_to_pipeline.foldl (fun ann vp =>
            if recipeRefers vp.2.recipe varname then
              set_action_annotation vp.2.version _RECIPE_KEY
                (some (_build_annotation_recipe vp.2.recipe)) ann
            else ann) st.annotations }
    | none => st
  (st1, [(Event.notifAdded varname renamed_from, st1)])

/-- Versions of all pipelines whose recipe references `varname`
(the `to_remove` set of `_remove_variable`). -/
def versionsUsing (st : VState) (varname : Str) : List Int :=
  ((st.version_to_pipeline.filter (fun vp => recipeRefers vp.2.recipe varname)).map
    (fun vp => vp.2.version)).dedup

/-- Clearing all three annotation kinds for one version. -/
def clearVersionAnnotations (version : Int) (ann : List ((Int × Str) × Str)) :
    List ((Int × Str) × Str) :=
  set_action_annotation version _VARMAP_KEY none
    ( set_action_annotation version _PORTMAP_KEY none
      ( set_action_annotation version _RECIPE_KEY none ann))

/-- Source `VistrailData._remove_variable`: sends the `dat_removed_variable`
notification FIRST, then (when this is a removal rather than a rename)
drops every pipeline record whose recipe references the variable, clears
their annotations, and drops the cell entries pointing at them. -/
def _remove_variable (st : VState) (varname : Str) (renamed_to : Option Str) :
    VState × List TEvent :=
  let tr0 : List TEvent := [(Event.notifRemoved varname renamed_to, st)]
  match renamed_to with
  | some _ => (st, tr0)
  | none =>
    let to_remove := versionsUsing st varname
    let tr1 := tr0 ++
      (if to_remove ≠ [] then
        [(Event.warnUsedPipelines varname to_remove.length, st)]
      else [])
    let st1 := { st with
      version_to_pipeline :=
        to_remove.foldl (fun m version => eraseA version m) st.version_to_pipeline,
      annotations :=
        to_remove.foldl (fun ann version => clearVersionAnnotations version ann)
          st.annotations }
    let cell_to_remove :=
      (st1.cell_to_version.filter (fun cv => cv.2 ∈ to_remove)).map (fun cv => cv.1)
    let st2 := { st1 with
      cell_to_version :=
        cell_to_remove.foldl (fun m c => eraseA c m) st1.cell_to_version,
      cell_to_pipeline :=
        cell_to_remove.foldl (fun m c => eraseA c m) st1.cell_to_pipeline }
    (st2, tr1)

/-- Source `VistrailData.remove_variable`: cascade, then `pop` the entry (a
`KeyError` escapes when the name is unknown — after the notification has
already been sent) and ask the variable to release its resources. -/
def remove_variable (st : VState) (varname : Str) : RunResult :=
  let r1 := _remove_variable st varname none
  match lookupA varname r1.1._variables with
  | none => { st := r1.1, trace := r1.2, err := some .keyError }
  | some _ =>
    let st2 := { r1.1 with _variables := eraseA varname r1.1._variables }
    { st := st2, trace := r1.2 ++ [(Event.extVariableRemove varname, st2)], err := none }

/-- Source `VistrailData.rename_variable`: notification-first cascade (a rename
does not drop records), re-key the entry, ask the variable to rename its
materialization (an in-place update of the shared object, modelled as an
update of the stored entry), then `_add_variable`.  No validation
whatsoever is performed: an unknown `old_varname` raises `KeyError` after
the first notification, and an existing `new_varname` is overwritten. -/
def rename_variable (st : VState) (old_varname new_varname : Str) : RunResult :=
  let r1 := _remove_variable st old_varname (some new_varname)
  match lookupA old_varname r1.1._variables with
  | none => { st := r1.1, trace := r1.2, err := some .keyError }
  | some v =>
    let st2 := { r1.1 with
      _variables := insertA new_varname v (eraseA old_varname r1.1._variables) }
    let st3 := { st2 with
      _variables := insertA new_varname { v with name := new_varname } st2._variables }
    let tr2 := r1.2 ++ [(Event.extVariableRename new_varname, st3)]
    let r4 := _add_variable st3 new_varname (some old_varname)
    { st := r4.1, trace := tr2 ++ r4.2, err := none }

/-- Source `VistrailData.new_variable`: a duplicate name raises `ValueError`
before anything happens; otherwise the variable source materializes
itself (external call), the result is stored, and `_add_variable` sends
the notification. -/
def new_variable (st : VState) (varname : Str) (variable_source : VarInfo) :
    RunResult :=
  match lookupA varname st._variables with
  | some _ => { st := st, trace := [], err := some .valueError }
  | none =>
    let v := variable_source
    let st1 := { st with _variables := insertA varname v st._variables }
    let r2 := _add_variable st1 varname none
    { st := r2.1, trace := [(Event.extPerformOps varname, st)] ++ r2.2, err := none }

/-- Source `VistrailData.created_pipeline`: when the version is already recorded
with an equal pipeline, return immediately; when it is recorded with a
different pipeline, warn and replace.  Otherwise record the pipeline in
all three maps and write the three annotations. -/
def created_pipeline (st : VState) (cellInfo : CellInfo)
    (pipeline : PipelineInformation) : VState × List TEvent :=
  let proceed : List TEvent → VState × List TEvent := fun tr0 =>
    let st1 := { st with
      cell_to_version := insertA cellInfo pipeline.version st.cell_to_version,
      version_to_pipeline :=
        insertA pipeline.version pipeline st.version_to_pipeline,
      cell_to_pipeline := insertA cellInfo pipeline st.cell_to_pipeline }
    let ann2 :=
      set_action_annotation pipeline.version _VARMAP_KEY
        (some (_build_annotation_varmap pipeline.var_map))
        ( set_action_annotation pipeline.version _PORTMAP_KEY
          (some (_build_annotation_portmap pipeline.port_map))
          ( set_action_annotation pipeline.version _RECIPE_KEY
            (some (_build_annotation_recipe pipeline.recipe)) st.annotations))
    let st2 := { st1 with annotations := ann2 }
    (st2, tr0)
  match lookupA pipeline.version st.version_to_pipeline with
  | some p =>
    if p = pipeline then (st, [])
    else proceed [(Event.warnStaleOverwrite pipeline.version, st)]
  | none => proceed []

/-! ## `VistrailData.__init__`: replaying persisted annotations

The constructor first loads variables from tagged versions (that part
depends on `Variable.read_type`, an external pipeline inspection; the
resulting variable table is taken as an input here), then replays the
document's action annotations in three passes: recipes, port maps,
variable maps. -/

/-- One persisted action annotation `(actionId, key, value)`. -/
structure Annot where
  action_id : Int
  key : Str
  value : Str
deriving DecidableEq

/-- First pass of `__init__`: decode every `dat-recipe` annotation;
successfully decoded ones create a `PipelineInformation`; failures are
dropped silently. -/
def loadRecipes (plots : List Str) : List Annot → VState → VState
  | [], st => st
  | an :: rest, st =>
    let st' :=
      if an.key = _RECIPE_KEY then
        match _read_annotation_recipe plots st._variables an.value with
        | some recipe =>
          let vtp := insertA an.action_id { version := an.action_id, recipe := recipe } st.version_to_pipeline
          { st with version_to_pipeline := vtp }
        | none => st
      else st
    loadRecipes plots rest st'

/-- Second pass of `__init__`: for every `dat-ports` annotation the code
indexes `self._version_to_pipeline[an.action_id]` directly — a version
with no (successfully decoded) recipe raises `KeyError` here.  The
`if not pipeline:` purge branch that follows is unreachable: a found
`PipelineInformation` object is always truthy. -/
def loadPortmaps : List Annot → VState → RunResult
  | [], st => { st := st, trace := [], err := none }
  | an :: rest, st =>
    if an.key = _PORTMAP_KEY then
      match lookupA an.action_id st.version_to_pipeline with
      | none => { st := st, trace := [], err := some .keyError }
      | some pipeline =>
        match _read_annotation_portmap an.value with
        | some port_map =>
          let vtp := insertA an.action_id { pipeline with port_map := port_map } st.version_to_pipeline
          loadPortmaps rest { st with version_to_pipeline := vtp }
        | none => loadPortmaps rest st
    else loadPortmaps rest st

/-- Third pass of `__init__`: same shape for `dat-vars`, with the same
unguarded dict indexing; note the decoded map is assigned to the
`varmap` attribute (sic). -/
def loadVarmaps : List Annot → VState → RunResult
  | [], st => { st := st, trace := [], err := none }
  | an :: rest, st =>
    if an.key = _VARMAP_KEY then
      match lookupA an.action_id st.version_to_pipeline with
      | none => { st := st, trace := [], err := some .keyError }
      | some pipeline =>
        match _read_annotation_varmap an.value with
        | some var_map =>
          let vtp := insertA an.action_id { pipeline with varmap := var_map } st.version_to_pipeline
          loadVarmaps rest { st with version_to_pipeline := vtp }
        | none => loadVarmaps rest st
    else loadVarmaps rest st

/-- The annotation table of the document, as a map keyed by
`(version, key)`. -/
def annotationTable (anns : List Annot) : List ((Int × Str) × Str) :=
  anns.foldl (fun acc an => insertA (an.action_id, an.key) an.value acc) []

/-- Source `VistrailData.__init__`, from the variable table produced by the
tag-loading phase and the document's action annotations.  An exception
escaping this function aborts the load of the document. -/
def loadVistrailData (plots : List Str) (initVars : List (Str × VarInfo))
    (anns : List Annot) : RunResult :=
  let st0 : VState :=
    { _variables := initVars
      cell_to_version := []
      version_to_pipeline := []
      cell_to_pipeline := []
      annotations := annotationTable anns }
  let st1 := loadRecipes plots anns st0
  let r2 := loadPortmaps anns st1
  match r2.err with
  | some e => { st := r2.st, trace := r2.trace, err := some e }
  | none => loadVarmaps anns r2.st

/-! ## The `VistrailManager` document registry -/

/-- Notification `dat_controller_changed(controller, new=...)`. -/
inductive MEvent
  | ctrlChanged (controller : Nat) (isNew : Bool)
deriving DecidableEq

/-- State of the `VistrailManager` singleton: one `VistrailData` per open
controller, plus the current controller (`None` at startup). -/
structure MState where
  vistrails : List (Nat × VState)
  current : Option Nat
deriving DecidableEq

/-- Source `VistrailManager.set_controller`.  `mkData` stands for
`VistrailData(controller)`, the lazily-run constructor. -/
def set_controller (mkData : Nat → VState) (m : MState) (controller : Nat) :
    MState × List MEvent :=
  if some controller = m.current then (m, [])
  else
    let m1 := { m with current := some controller }
    match lookupA controller m1.vistrails with
    | some _ => (m1, [MEvent.ctrlChanged controller false])
    | none =>
      ({ m1 with vistrails := insertA controller (mkData controller) m1.vistrails },
       [MEvent.ctrlChanged controller true])

/-! ## Helper lemmas for the codec round-trip -/

theorem mem_joinSep {c : Char} {sep : Char} {parts : List Str}
    (hc : c ∈ joinSep sep parts) : c = sep ∨ ∃ p ∈ parts, c ∈ p := by
  induction parts with
  | nil => simp [joinSep] at hc
  | cons p ps ih =>
    match ps with
    | [] =>
      simp only [joinSep] at hc
      exact Or.inr ⟨p, by simp, hc⟩
    | q :: qs =>
      have : c ∈ p ++ sep :: joinSep sep (q :: qs) := hc
      rcases List.mem_append.mp this with h | h
      · exact Or.inr ⟨p, by simp, h⟩
      · rcases List.mem_cons.mp h with rfl | h
        · exact Or.inl rfl
        · rcases ih h with h | ⟨r, hr, hcr⟩
          · exact Or.inl h
          · exact Or.inr ⟨r, by simp [List.mem_cons.mp hr], hcr⟩

theorem natToStr_ne_nil (n : Nat) : natToStr n ≠ [] := by
  rcases natToStr_head_digit n with ⟨d, _, rest, h⟩
  simp [h]

theorem intToStr_ne_nil (n : Int) : intToStr n ≠ [] := by
  rw [intToStr]
  split
  · simp
  · exact natToStr_ne_nil _

theorem insertA_fresh {α β : Type} [DecidableEq α] {k : α} (v : β)
    {m : List (α × β)} (h : lookupA k m = none) : insertA k v m = m ++ [(k, v)] := by
  induction m with
  | nil => rfl
  | cons p rest ih =>
    obtain ⟨pk, pv⟩ := p
    simp only [lookupA] at h
    split at h
    · exact absurd h (by simp)
    · rename_i hk
      simp only [insertA, if_neg hk, List.cons_append]
      rw [ih h]

theorem lookupA_append_none {α β : Type} [DecidableEq α] {x k : α} (v : β)
    {m : List (α × β)} (h : lookupA x m = none) (hxk : k ≠ x) :
    lookupA x (m ++ [(k, v)]) = none := by
  induction m with
  | nil => simp [lookupA, hxk]
  | cons p rest ih =>
    obtain ⟨pk, pv⟩ := p
    simp only [lookupA] at h ⊢
    split at h
    · exact absurd h (by simp)
    · rename_i hk
      rw [if_neg hk]
      exact ih h

/-- A name that is free of the four reserved separator characters. -/
def reservedFree (s : Str) : Prop :=
  ';' ∉ s ∧ '=' ∉ s ∧ ',' ∉ s ∧ ':' ∉ s

instance : DecidablePred reservedFree := fun s => by
  unfold reservedFree; infer_instance

theorem not_mem_intToStr {c : Char} (hc : c ∈ ([';', '=', ',', ':'] : List Char))
    (n : Int) : c ∉ intToStr n :=
  fun h => mem_intToStr_not_special h hc

/-- No `';'` or `'='` occurs in the encoded port list of one parameter. -/
theorem not_mem_portsStr {c : Char} (hc : c ∈ ([';', '='] : List Char))
    {ports : List (Int × Str)} (h : ∀ mp ∈ ports, reservedFree mp.2) :
    c ∉ joinSep ',' (ports.map (fun mp => intToStr mp.1 ++ ':' :: mp.2)) := by
  intro hmem
  have hc4 : c ∈ ([';', '=', ',', ':'] : List Char) := by
    simp only [List.mem_cons, List.mem_singleton] at hc ⊢
    tauto
  rcases mem_joinSep hmem with rfl | ⟨e, he, hce⟩
  · simp at hc
  · rcases List.mem_map.mp he with ⟨mp, hmp, rfl⟩
    rcases List.mem_append.mp hce with h1 | h2
    · exact not_mem_intToStr hc4 mp.1 h1
    · rcases List.mem_cons.mp h2 with rfl | h3
      · simp at hc
      · rcases h mp hmp with ⟨hA, hB, hC, hD⟩
        rcases List.mem_cons.mp hc4 with rfl | hc4
        · exact hA h3
        rcases List.mem_cons.mp hc4 with rfl | hc4
        · exact hB h3
        rcases List.mem_cons.mp hc4 with rfl | hc4
        · exact hC h3
        rcases List.mem_cons.mp hc4 with rfl | hc4
        · exact hD h3
        · simp at hc4

/-- No `','` occurs in the encoding of one `(module id, port name)`. -/
theorem not_comma_mem_encPort {mp : Int × Str} (h : reservedFree mp.2) :
    ',' ∉ intToStr mp.1 ++ ':' :: mp.2 := by
  intro hmem
  rcases List.mem_append.mp hmem with h1 | h2
  · exact not_mem_intToStr (by decide) mp.1 h1
  · rcases List.mem_cons.mp h2 with heq | h3
    · exact absurd heq (by decide)
    · exact h.2.2.1 h3

theorem parsePort_encPort (mp : Int × Str) (h : reservedFree mp.2) :
    parsePort (intToStr mp.1 ++ ':' :: mp.2) = some mp := by
  rw [parsePort]
  rw [splitOnC_append_sep ':' _ _ (not_mem_intToStr (by decide) mp.1),
      splitOnC_no_sep ':' _ h.2.2.2]
  simp [parseInt_intToStr]

theorem parsePortList_enc (ports : List (Int × Str))
    (h : ∀ mp ∈ ports, reservedFree mp.2) :
    parsePortList (ports.map (fun mp => intToStr mp.1 ++ ':' :: mp.2)) = some ports := by
  induction ports with
  | nil => rfl
  | cons mp more ih =>
    simp only [List.map_cons, parsePortList,
      parsePort_encPort mp (h mp (by simp)),
      ih (fun q hq => h q (by simp [hq]))]

theorem joinSep_head_ne_nil {sep : Char} {p : Str} {ps : List Str} (hp : p ≠ []) :
    joinSep sep (p :: ps) ≠ [] := by
  match ps with
  | [] => exact hp
  | q :: qs =>
    show p ++ sep :: joinSep sep (q :: qs) ≠ []
    simp [hp]

/-- The segment loop of the port-map decoder, on encoded well-formed
entries with keys fresh for the accumulator, appends the entries. -/
theorem readPortmapGo_enc (pm : PortMap) (hk : (pm.map Prod.fst).Nodup)
    (hent : ∀ p ∈ pm, reservedFree p.1 ∧ ∀ mp ∈ p.2, reservedFree mp.2) :
    ∀ acc, (∀ p ∈ pm, lookupA p.1 acc = none) →
      readPortmapGo
        (pm.map (fun pp =>
          pp.1 ++ '=' :: joinSep ',' (pp.2.map (fun mp => intToStr mp.1 ++ ':' :: mp.2))))
        acc = some (acc ++ pm) := by
  induction pm with
  | nil => intro acc _; simp [readPortmapGo]
  | cons p ps ih =>
    intro acc hfresh
    obtain ⟨param, ports⟩ := p
    have hp := hent (param, ports) (by simp)
    have hsplit : splitOnC '='
        (param ++ '=' :: joinSep ',' (ports.map (fun mp => intToStr mp.1 ++ ':' :: mp.2))) =
        [param, joinSep ',' (ports.map (fun mp => intToStr mp.1 ++ ':' :: mp.2))] := by
      rw [splitOnC_append_sep '=' _ _ hp.1.2.1,
          splitOnC_no_sep '=' _ (not_mem_portsStr (by decide) hp.2)]
    have hkps : (ps.map Prod.fst).Nodup := (List.nodup_cons.mp hk).2
    have hparam : param ∉ ps.map Prod.fst := (List.nodup_cons.mp hk).1
    have hentps : ∀ q ∈ ps, reservedFree q.1 ∧ ∀ mp ∈ q.2, reservedFree mp.2 :=
      fun q hq => hent q (by simp [hq])
    have hfresh' : ∀ q ∈ ps, lookupA q.1 (acc ++ [(param, ports)]) = none := by
      intro q hq
      refine lookupA_append_none ports (hfresh q (by simp [hq])) ?_
      intro heq
      exact hparam (heq ▸ List.mem_map_of_mem Prod.fst hq)
    simp only [List.map_cons, readPortmapGo, hsplit]
    cases ports with
    | nil =>
      simp only [List.map_nil, joinSep, if_pos rfl]
      rw [insertA_fresh [] (hfresh (param, []) (by simp))]
      rw [ih hkps hentps (acc ++ [(param, [])]) hfresh']
      simp
    | cons mp more =>
      have hne : joinSep ','
          ((mp :: more).map (fun q => intToStr q.1 ++ ':' :: q.2)) ≠ [] := by
        simp only [List.map_cons]
        exact joinSep_head_ne_nil (by simp [intToStr_ne_nil])
      rw [if_neg hne]
      rw [splitOnC_joinSep ',' _ (by simp) ?commafree]
      case commafree =>
        intro e he
        rcases List.mem_map.mp he with ⟨q, hq, rfl⟩
        exact not_comma_mem_encPort (hp.2 q hq)
      simp only [parsePortList_enc _ (fun q hq => hp.2 q hq)]
      rw [insertA_fresh (mp :: more) (hfresh (param, mp :: more) (by simp))]
      rw [ih hkps hentps (acc ++ [(param, mp :: more)]) hfresh']
      simp

/-- Round-trip of the port-map codec on nonempty maps with
separator-free names. -/
theorem portmap_roundtrip (pm : PortMap) (hne : pm ≠ [])
    (hk : (pm.map Prod.fst).Nodup)
    (hent : ∀ p ∈ pm, reservedFree p.1 ∧ ∀ mp ∈ p.2, reservedFree mp.2) :
    _read_annotation_portmap (_build_annotation_portmap pm) = some pm := by
  rw [_read_annotation_portmap, _build_annotation_portmap]
  rw [splitOnC_joinSep ';' _ (by simp [hne]) ?nosemi]
  case nosemi =>
    intro e he
    rcases List.mem_map.mp he with ⟨q, hq, rfl⟩
    intro hmem
    rcases List.mem_append.mp hmem with h1 | h2
    · exact (hent q hq).1.1 h1
    · rcases List.mem_cons.mp h2 with heq | h3
      · exact absurd heq (by decide)
      · exact not_mem_portsStr (by decide) (hent q hq).2 h3
  have := readPortmapGo_enc pm hk hent [] (fun p _ => rfl)
  simpa using this

/-- No `';'` or `'='` occurs in the encoded connection list of one
parameter. -/
theorem not_mem_connsStr {c : Char} (hc : c ∈ ([';', '='] : List Char))
    (conns : List Int) : c ∉ joinSep ',' (conns.map intToStr) := by
  intro hmem
  have hc4 : c ∈ ([';', '=', ',', ':'] : List Char) := by
    simp only [List.mem_cons, List.mem_singleton] at hc ⊢
    tauto
  rcases mem_joinSep hmem with rfl | ⟨e, he, hce⟩
  · simp at hc
  · rcases List.mem_map.mp he with ⟨n, _, rfl⟩
    exact not_mem_intToStr hc4 n hce

theorem parseConnList_enc (conns : List Int) :
    parseConnList (conns.map intToStr) = some conns := by
  induction conns with
  | nil => rfl
  | cons n more ih =>
    simp only [List.map_cons, parseConnList, parseInt_intToStr, ih]

/-- The segment loop of the var-map decoder, on encoded well-formed
entries with keys fresh for the accumulator, appends the entries. -/
theorem readVarmapGo_enc (vm : VarMap) (hk : (vm.map Prod.fst).Nodup)
    (hent : ∀ p ∈ vm, reservedFree p.1) :
    ∀ acc, (∀ p ∈ vm, lookupA p.1 acc = none) →
      readVarmapGo
        (vm.map (fun pc => pc.1 ++ '=' :: joinSep ',' (pc.2.map intToStr)))
        acc = some (acc ++ vm) := by
  induction vm with
  | nil => intro acc _; simp [readVarmapGo]
  | cons p ps ih =>
    intro acc hfresh
    obtain ⟨param, conns⟩ := p
    have hp := hent (param, conns) (by simp)
    have hsplit : splitOnC '=' (param ++ '=' :: joinSep ',' (conns.map intToStr)) =
        [param, joinSep ',' (conns.map intToStr)] := by
      rw [splitOnC_append_sep '=' _ _ hp.2.1,
          splitOnC_no_sep '=' _ (not_mem_connsStr (by decide) conns)]
    have hkps : (ps.map Prod.fst).Nodup := (List.nodup_cons.mp hk).2
    have hparam : param ∉ ps.map Prod.fst := (List.nodup_cons.mp hk).1
    have hentps : ∀ q ∈ ps, reservedFree q.1 := fun q hq => hent q (by simp [hq])
    have hfresh' : ∀ q ∈ ps, lookupA q.1 (acc ++ [(param, conns)]) = none := by
      intro q hq
      refine lookupA_append_none conns (hfresh q (by simp [hq])) ?_
      intro heq
      exact hparam (heq ▸ List.mem_map_of_mem Prod.fst hq)
    simp only [List.map_cons, readVarmapGo, hsplit]
    cases conns with
    | nil =>
      simp only [List.map_nil, joinSep, if_pos rfl]
      rw [insertA_fresh [] (hfresh (param, []) (by simp))]
      rw [ih hkps hentps (acc ++ [(param, [])]) hfresh']
      simp
    | cons n more =>
      have hne : joinSep ',' ((n :: more).map intToStr) ≠ [] := by
        simp only [List.map_cons]
        exact joinSep_head_ne_nil (intToStr_ne_nil n)
      rw [if_neg hne]
      rw [splitOnC_joinSep ',' _ (by simp) ?commafree]
      case commafree =>
        intro e he
        rcases List.mem_map.mp he with ⟨q, hq, rfl⟩
        exact not_mem_intToStr (by decide) q
      simp only [parseConnList_enc]
      rw [insertA_fresh (n :: more) (hfresh (param, n :: more) (by simp))]
      rw [ih hkps hentps (acc ++ [(param, n :: more)]) hfresh']
      simp

/-- Round-trip of the var-map codec on nonempty maps with separator-free
names. -/
theorem varmap_roundtrip (vm : VarMap) (hne : vm ≠ [])
    (hk : (vm.map Prod.fst).Nodup) (hent : ∀ p ∈ vm, reservedFree p.1) :
    _read_annotation_varmap (_build_annotation_varmap vm) = some vm := by
  rw [_read_annotation_varmap, _build_annotation_varmap]
  rw [splitOnC_joinSep ';' _ (by simp [hne]) ?nosemi]
  case nosemi =>
    intro e he
    rcases List.mem_map.mp he with ⟨q, hq, rfl⟩
    intro hmem
    rcases List.mem_append.mp hmem with h1 | h2
    · exact (hent q hq).1 h1
    · rcases List.mem_cons.mp h2 with heq | h3
      · exact absurd heq (by decide)
      · exact not_mem_connsStr (by decide) q.2 h3
  have := readVarmapGo_enc vm hk hent [] (fun p _ => rfl)
  simpa using this

/-! ## Claims C1–C3: load robustness and the codec contract -/

/-- Claim **C1** — the claim says a `dat-ports`/`dat-vars` annotation whose
version has no decoded recipe is purged with a warning and never prevents
the load from completing.  In the code, the second and third passes of
`__init__` index `self._version_to_pipeline[an.action_id]` unguarded, so
a lone port-map annotation raises `KeyError` and aborts the load; the
`if not pipeline:` purge branch below that lookup is unreachable dead
code (contradicting its own comment and warning message).  Evidence:
loading a document whose only annotation is a lone `dat-ports` record
escapes with `KeyError`. -/
theorem c1_load_orphan_portmap_raises :
    (loadVistrailData [] []
      [{ action_id := 1, key := _PORTMAP_KEY, value := "p=1:a".data }]).err =
      some PyErr.keyError := by decide

/-- Claim **C2** — the claim says `_read_annotation_recipe` returns `None`
whenever a variable name fails to resolve.  In the code the right-hand
side is resolved with `self.get_variable`, a `.get` that returns `None`
instead of raising, so the decoder returns a partially resolved recipe
(the parameter bound to `None`).  Evidence: decoding
`"scatter;x=temp"` against an empty variable table (with plot
`"scatter"` known) yields a recipe, not `None`. -/
theorem c2_decode_returns_partial_recipe :
    _read_annotation_recipe ["scatter".data] [] ("scatter;x=temp".data) =
      some ⟨⟨"scatter".data⟩, [("x".data, none)]⟩ ∧
    _read_annotation_recipe ["scatter".data] [] ("scatter;x=temp".data) ≠ none := by
  decide

/-- Claim **C3 (counterexample)** — the claim includes the empty map, but the
empty port-map and var-map encode to the empty string, which both
decoders reject (`''.split(';') == ['']` and `''.split('=')` cannot be
unpacked into two names), so `decode(encode({})) = None ≠ {}`. -/
theorem c3_counterexample_empty_map :
    _read_annotation_portmap (_build_annotation_portmap ([] : PortMap)) ≠
      some ([] : PortMap) ∧
    _read_annotation_varmap (_build_annotation_varmap ([] : VarMap)) ≠
      some ([] : VarMap) := by
  decide

/-- Claim **C3 (amended)** — for every NONEMPTY port-map and var-map whose
parameter names AND port names are free of `';'`, `'='`, `','`, `':'`
(parameters bound to empty lists are fine), decoding the encoding
returns the original value; the empty map is the only excluded shape
(it encodes to `''`, which decodes to `None`). -/
theorem c3_roundtrip_amended (pm : PortMap) (vm : VarMap)
    (hpmne : pm ≠ []) (hvmne : vm ≠ [])
    (hpmk : (pm.map Prod.fst).Nodup) (hvmk : (vm.map Prod.fst).Nodup)
    (hpm : ∀ p ∈ pm, reservedFree p.1 ∧ ∀ mp ∈ p.2, reservedFree mp.2)
    (hvm : ∀ p ∈ vm, reservedFree p.1) :
    _read_annotation_portmap (_build_annotation_portmap pm) = some pm ∧
    _read_annotation_varmap (_build_annotation_varmap vm) = some vm :=
  ⟨portmap_roundtrip pm hpmne hpmk hpm, varmap_roundtrip vm hvmne hvmk hvm⟩

/-- Witness for C3 (amended) at concrete maps, including a parameter
bound to the empty list and a negative connection id. -/
theorem c3_roundtrip_amended_witness :
    _read_annotation_portmap (_build_annotation_portmap
        [("x".data, [(3, "in".data), (12, "out".data)]), ("y".data, [])]) =
      some [("x".data, [(3, "in".data), (12, "out".data)]), ("y".data, [])] ∧
    _read_annotation_varmap (_build_annotation_varmap [("z".data, [7, -2]), ("w".data, [])]) =
      some [("z".data, [7, -2]), ("w".data, [])] :=
  c3_roundtrip_amended _ _ (by decide) (by decide) (by decide) (by decide)
    (by decide) (by decide)

/-! ## Sample data for witnesses and counterexamples -/

/-- A sample variable. -/
def vTemp : VarInfo := ⟨"temp".data, "T".data⟩

/-- A second sample variable. -/
def vPres : VarInfo := ⟨"pressure".data, "T".data⟩

/-- The store state of a fresh empty document. -/
def emptyVState : VState := ⟨[], [], [], [], []⟩

/-! ## Claim C8: `new_variable` -/

/-- Claim **C8** — registering an existing name raises `ValueError` before the
source is materialized, with no notification and no state change at all;
registering a fresh name materializes the source (external call), stores
the result under the name, and emits `dat_new_variable` with
`renamed_from = None`. -/
theorem c8_new_variable (st : VState) (varname : Str) (src : VarInfo) :
    ((lookupA varname st._variables).isSome →
      new_variable st varname src =
        { st := st, trace := [], err := some PyErr.valueError }) ∧
    (lookupA varname st._variables = none →
      (new_variable st varname src).err = none ∧
      lookupA varname (new_variable st varname src).st._variables = some src ∧
      (new_variable st varname src).trace.map Prod.fst =
        [Event.extPerformOps varname, Event.notifAdded varname none]) := by
  cases h : lookupA varname st._variables with
  | some v =>
    refine ⟨fun _ => ?_, fun h2 => nomatch h2⟩
    simp [new_variable, h]
  | none =>
    refine ⟨fun h2 => by simp at h2, fun _ => ?_⟩
    simp [new_variable, h, _add_variable, lookupA_insertA]

/-- Witness for C8 at concrete inputs: a duplicate registration of
`"temp"` is rejected unchanged, and a fresh registration of
`"pressure"` stores and notifies. -/
theorem c8_new_variable_witness :
    (new_variable ⟨[("temp".data, vTemp)], [], [], [], []⟩ "temp".data vPres =
      { st := ⟨[("temp".data, vTemp)], [], [], [], []⟩, trace := [],
        err := some PyErr.valueError }) ∧
    ((new_variable emptyVState "pressure".data vPres).err = none ∧
      lookupA "pressure".data
        (new_variable emptyVState "pressure".data vPres).st._variables = some vPres ∧
      (new_variable emptyVState "pressure".data vPres).trace.map Prod.fst =
        [Event.extPerformOps "pressure".data, Event.notifAdded "pressure".data none]) :=
  ⟨(c8_new_variable ⟨[("temp".data, vTemp)], [], [], [], []⟩ "temp".data vPres).1
      (by decide),
   (c8_new_variable emptyVState "pressure".data vPres).2 (by decide)⟩

/-! ## Claim C4: mutate-then-notify ordering -/

/-- The four in-memory maps of the store (the persisted annotation table
excluded). -/
def mapsOf (st : VState) :=
  (st._variables, st.cell_to_version, st.version_to_pipeline, st.cell_to_pipeline)

/-- A state with one registered variable and nothing else, used to
exhibit the notify-before-mutate behaviour of `remove_variable`. -/
def stOneVar : VState := ⟨[("temp".data, vTemp)], [], [], [], []⟩

/-- Claim **C4 (counterexample)** — `remove_variable` sends the
`dat_removed_variable` notification FIRST: the snapshot attached to the
notification still contains the variable, while the final state does
not, so a notification is emitted while the maps still hold the
pre-mutation state. -/
theorem c4_counterexample_notify_before_mutate :
    (remove_variable stOneVar "temp".data).trace.head? =
      some (Event.notifRemoved "temp".data none, stOneVar) ∧
    stOneVar._variables ≠ (remove_variable stOneVar "temp".data).st._variables := by
  decide

/-- Claim **C4 (amended)** — the ordering discipline the code actually follows:
`new_variable` completes its map mutation before its (only) notification;
`remove_variable` and `rename_variable` deliberately emit
`dat_removed_variable` BEFORE mutating (the snapshot is the pre-mutation
state, so subscribers can still see the referencing recipes, as §4.2 of
the spec describes); `rename_variable`'s closing `dat_new_variable` is
emitted after all map mutations (its snapshot is the final state). -/
theorem c4_amended_mutate_notify :
    (∀ st varname src e, e ∈ (new_variable st varname src).trace →
      e.1.isNotif = true → mapsOf e.2 = mapsOf (new_variable st varname src).st) ∧
    (∀ st varname, (remove_variable st varname).trace.head? =
      some (Event.notifRemoved varname none, st)) ∧
    (∀ st oldName newName, (rename_variable st oldName newName).trace.head? =
      some (Event.notifRemoved oldName (some newName), st)) ∧
    (∀ st oldName newName, (rename_variable st oldName newName).err = none →
      (rename_variable st oldName newName).trace.getLast? =
        some (Event.notifAdded newName (some oldName),
          (rename_variable st oldName newName).st)) := by
  refine ⟨?_, ?_, ?_, ?_⟩
  · intro st varname src e he hn
    cases h : lookupA varname st._variables with
    | some v => simp [new_variable, h] at he
    | none =>
      simp [new_variable, h, _add_variable] at he
      rcases he with rfl | rfl
      · simp [Event.isNotif] at hn
      · simp [new_variable, h, _add_variable]
  · intro st varname
    cases h : lookupA varname st._variables <;>
      simp [remove_variable, _remove_variable, h]
  · intro st oldName newName
    cases h : lookupA oldName st._variables <;>
      simp [rename_variable, _remove_variable, h]
  · intro st oldName newName herr
    cases h : lookupA oldName st._variables with
    | none => simp [rename_variable, _remove_variable, h] at herr
    | some v => simp [rename_variable, _remove_variable, _add_variable, h]

/-- Witness for C4 (amended): the hypothesized parts at concrete inputs —
the `dat_new_variable` snapshot of a fresh registration equals the final
state, and a successful rename's last notification carries the final
state. -/
theorem c4_amended_mutate_notify_witness :
    mapsOf (Event.notifAdded "temp".data none, stOneVar).2 =
      mapsOf (new_variable emptyVState "temp".data vTemp).st ∧
    (rename_variable stOneVar "temp".data "t2".data).trace.getLast? =
      some (Event.notifAdded "t2".data (some "temp".data),
        (rename_variable stOneVar "temp".data "t2".data).st) :=
  ⟨c4_amended_mutate_notify.1 emptyVState "temp".data vTemp
      (Event.notifAdded "temp".data none, stOneVar) (by decide) (by decide),
   c4_amended_mutate_notify.2.2.2 stOneVar "temp".data "t2".data (by decide)⟩

/-! ## Claim C6: `rename_variable` -/

/-- A registry holding both `"a"` and `"b"`. -/
def stTwoVars : VState :=
  ⟨[("a".data, ⟨"a".data, "T".data⟩), ("b".data, ⟨"b".data, "T".data⟩)],
   [], [], [], []⟩

/-- Claim **C6 (counterexample)** — renaming `"a"` to `"b"` while `"b"` is
already registered is NOT rejected: the operation completes without
error and changes the registry (the existing `"b"` entry is
overwritten). -/
theorem c6_counterexample_rename_overwrites :
    (rename_variable stTwoVars "a".data "b".data).err = none ∧
    (rename_variable stTwoVars "a".data "b".data).st._variables ≠
      stTwoVars._variables := by
  decide

/-- Claim **C6 (amended)** — `rename_variable` performs no validation at all.
If `old_name` is unregistered, the `pop` raises `KeyError` — but only
after `dat_removed_variable` has already been emitted — and the state is
left unchanged.  If `old_name` is registered the rename always succeeds:
it emits `dat_removed_variable` with `renamed_to = new_name`, re-keys
the entry (silently overwriting any existing `new_name` entry), asks the
variable to update its materialized name, and finally emits
`dat_new_variable` with `renamed_from = old_name`. -/
theorem c6_rename_amended (st : VState) (oldName newName : Str) :
    (lookupA oldName st._variables = none →
      (rename_variable st oldName newName).err = some PyErr.keyError ∧
      (rename_variable st oldName newName).st = st ∧
      (rename_variable st oldName newName).trace =
        [(Event.notifRemoved oldName (some newName), st)]) ∧
    (∀ v, lookupA oldName st._variables = some v →
      (rename_variable st oldName newName).err = none ∧
      lookupA newName (rename_variable st oldName newName).st._variables =
        some { v with name := newName } ∧
      (oldName ≠ newName →
        lookupA oldName (rename_variable st oldName newName).st._variables = none) ∧
      (rename_variable st oldName newName).trace.map Prod.fst =
        [Event.notifRemoved oldName (some newName),
         Event.extVariableRename newName,
         Event.notifAdded newName (some oldName)]) := by
  cases h : lookupA oldName st._variables with
  | none =>
    refine ⟨fun _ => ?_, fun v hv => nomatch hv⟩
    simp [rename_variable, _remove_variable, h]
  | some w =>
    refine ⟨(fun h2 => nomatch h2), fun v hv => ?_⟩
    obtain rfl : w = v := by injection hv
    refine ⟨?_, ?_, ?_, ?_⟩
    · simp [rename_variable, _remove_variable, _add_variable, h]
    · simp [rename_variable, _remove_variable, _add_variable, h, lookupA_insertA]
    · intro hne
      have hne' : newName ≠ oldName := fun hx => hne hx.symm
      simp [rename_variable, _remove_variable, _add_variable, h, lookupA_insertA,
        lookupA_eraseA, if_neg hne']
    · simp [rename_variable, _remove_variable, _add_variable, h]

/-- Witness for C6 (amended) at concrete inputs: renaming an unknown
name raises after notifying, and renaming `"a"` to `"c"` succeeds and
re-keys. -/
theorem c6_rename_amended_witness :
    ((rename_variable stTwoVars "zz".data "c".data).err = some PyErr.keyError ∧
     (rename_variable stTwoVars "zz".data "c".data).st = stTwoVars ∧
     (rename_variable stTwoVars "zz".data "c".data).trace =
       [(Event.notifRemoved "zz".data (some "c".data), stTwoVars)]) ∧
    ((rename_variable stTwoVars "a".data "c".data).err = none ∧
     lookupA "c".data (rename_variable stTwoVars "a".data "c".data).st._variables =
       some ⟨"c".data, "T".data⟩ ∧
     ("a".data ≠ "c".data →
       lookupA "a".data
         (rename_variable stTwoVars "a".data "c".data).st._variables = none) ∧
     (rename_variable stTwoVars "a".data "c".data).trace.map Prod.fst =
       [Event.notifRemoved "a".data (some "c".data),
        Event.extVariableRename "c".data,
        Event.notifAdded "c".data (some "a".data)]) :=
  ⟨(c6_rename_amended stTwoVars "zz".data "c".data).1 (by decide),
   (c6_rename_amended stTwoVars "a".data "c".data).2 ⟨"a".data, "T".data⟩ (by decide)⟩

/-! ## Claim C7: `created_pipeline` -/

theorem keys_insertA_of_lookup {α β : Type} [DecidableEq α] (k : α) (v w : β)
    (m : List (α × β)) (h : lookupA k m = some w) :
    (insertA k v m).map Prod.fst = m.map Prod.fst := by
  induction m with
  | nil => simp [lookupA] at h
  | cons p rest ih =>
    obtain ⟨pk, pv⟩ := p
    simp only [lookupA] at h
    by_cases hk : pk = k
    · subst hk
      simp [insertA]
    · rw [if_neg hk] at h
      simp only [insertA, if_neg hk, List.map_cons, ih h]

theorem nodup_keys_insertA {α β : Type} [DecidableEq α] (k : α) (v : β)
    (m : List (α × β)) (hnd : (m.map Prod.fst).Nodup) :
    ((insertA k v m).map Prod.fst).Nodup := by
  cases h : lookupA k m with
  | some w => rw [keys_insertA_of_lookup k v w m h]; exact hnd
  | none =>
    rw [insertA_fresh v h, List.map_append]
    rw [List.nodup_append]
    refine ⟨hnd, List.nodup_singleton k, ?_⟩
    intro a ha hb
    simp only [List.map_cons, List.map_nil, List.mem_singleton] at hb
    subst hb
    have : (lookupA a m).isSome = true := (lookupA_isSome_iff_mem_keys a m).mpr ha
    rw [h] at this
    cases this

theorem filter_key_nil_of_not_mem {α β : Type} [DecidableEq α] {m : List (α × β)}
    {k : α} (h : k ∉ m.map Prod.fst) :
    m.filter (fun p => p.1 = k) = [] := by
  induction m with
  | nil => rfl
  | cons p rest ih =>
    have hp : ¬ (p.1 = k) := by
      intro hx
      exact h (by rw [List.map_cons]; exact List.mem_cons.mpr (Or.inl hx.symm))
    have ht : k ∉ rest.map Prod.fst := by
      intro hx
      exact h (by rw [List.map_cons]; exact List.mem_cons.mpr (Or.inr hx))
    simp [List.filter_cons, hp, ih ht]

theorem length_filter_key_of_lookup {α β : Type} [DecidableEq α]
    {m : List (α × β)} {k : α} {v : β}
    (hnd : (m.map Prod.fst).Nodup) (h : lookupA k m = some v) :
    (m.filter (fun p => p.1 = k)).length = 1 := by
  induction m with
  | nil => simp [lookupA] at h
  | cons p rest ih =>
    obtain ⟨pk, pv⟩ := p
    rw [List.map_cons] at hnd
    rcases List.nodup_cons.mp hnd with ⟨hpk, hrest⟩
    simp only [lookupA] at h
    by_cases hk : pk = k
    · subst hk
      rw [List.filter_cons]
      rw [filter_key_nil_of_not_mem hpk]
      simp
    · rw [if_neg hk] at h
      simp [List.filter_cons, hk, ih hrest h]

/-- A sample recipe/pipeline/state for the C7 scenario. -/
def recScatter : DATRecipe := ⟨⟨"scatter".data⟩, [("x".data, some vTemp)]⟩

/-- A sample realized pipeline at version 5. -/
def pipe5 : PipelineInformation :=
  { version := 5, recipe := recScatter,
    port_map := [("x".data, [(1, "in".data)])], var_map := [("x".data, [2])] }

/-- A store that already records `pipe5` at version 5, displayed in
cell 0. -/
def stPipe5 : VState :=
  ⟨[("temp".data, vTemp)], [(0, 5)], [(5, pipe5)], [(0, pipe5)], []⟩

/-- Claim **C7 (counterexample)** — the claim promises that after
`created_pipeline(cell, p)` returns, `cell` is mapped to `p.version`.
Calling it with a NEW cell (cell 1) and an already-recorded equal
pipeline takes the `return  # Ok I guess` path, leaving cell 1 unmapped. -/
theorem c7_counterexample_second_cell_unmapped :
    lookupA 1 (created_pipeline stPipe5 1 pipe5).1.cell_to_version ≠
      some pipe5.version := by
  decide

/-- The `proceed` path of `created_pipeline`, taken whenever the version
is not already recorded with an equal pipeline. -/
theorem created_pipeline_proceed (st : VState) (cell : CellInfo)
    (p : PipelineInformation)
    (h : lookupA p.version st.version_to_pipeline ≠ some p) :
    created_pipeline st cell p =
      ({ st with
        cell_to_version := insertA cell p.version st.cell_to_version,
        version_to_pipeline := insertA p.version p st.version_to_pipeline,
        cell_to_pipeline := insertA cell p st.cell_to_pipeline,
        annotations :=
          insertA (p.version, _VARMAP_KEY) (_build_annotation_varmap p.var_map)
            (insertA (p.version, _PORTMAP_KEY) (_build_annotation_portmap p.port_map)
              (insertA (p.version, _RECIPE_KEY) (_build_annotation_recipe p.recipe)
                st.annotations)) },
       if (lookupA p.version st.version_to_pipeline).isSome then
         [(Event.warnStaleOverwrite p.version, st)]
       else []) := by
  cases hl : lookupA p.version st.version_to_pipeline with
  | none => simp [created_pipeline, hl, set_action_annotation]
  | some q =>
    have hq : ¬ (q = p) := fun hx => h (hx ▸ hl)
    simp [created_pipeline, hl, hq, set_action_annotation]

/-- Claim **C7 (amended)** — when `p.version` is not already recorded with an
equal pipeline, `created_pipeline(cell, p)` maps `cell` to `p.version`
in both cell maps, records `p` for `p.version`, and writes all three
annotations; when an equal pipeline is already recorded the call returns
immediately with no state change and no warning.  Hence calling it twice
with the same cell and pipeline is idempotent: the second call is a
no-op (no stale-overwrite warning) and exactly one record exists for the
version. -/
theorem created_pipeline_noop (s : VState) (cell : CellInfo)
    (p : PipelineInformation)
    (h : lookupA p.version s.version_to_pipeline = some p) :
    created_pipeline s cell p = (s, []) := by
  simp [created_pipeline, h]

theorem c7_created_pipeline_amended (st : VState) (cell : CellInfo)
    (p : PipelineInformation) :
    (lookupA p.version st.version_to_pipeline = some p →
      created_pipeline st cell p = (st, [])) ∧
    (lookupA p.version st.version_to_pipeline ≠ some p →
      lookupA cell (created_pipeline st cell p).1.cell_to_version = some p.version ∧
      lookupA p.version (created_pipeline st cell p).1.version_to_pipeline = some p ∧
      lookupA cell (created_pipeline st cell p).1.cell_to_pipeline = some p ∧
      lookupA (p.version, _RECIPE_KEY) (created_pipeline st cell p).1.annotations =
        some (_build_annotation_recipe p.recipe) ∧
      lookupA (p.version, _PORTMAP_KEY) (created_pipeline st cell p).1.annotations =
        some (_build_annotation_portmap p.port_map) ∧
      lookupA (p.version, _VARMAP_KEY) (created_pipeline st cell p).1.annotations =
        some (_build_annotation_varmap p.var_map)) ∧
    (created_pipeline (created_pipeline st cell p).1 cell p =
      ((created_pipeline st cell p).1, [])) ∧
    ((st.version_to_pipeline.map Prod.fst).Nodup →
      ((created_pipeline (created_pipeline st cell p).1 cell p).1.version_to_pipeline.filter
        (fun vp => vp.1 = p.version)).length = 1) := by
  have kVR : ((p.version, _VARMAP_KEY) : Int × Str) ≠ (p.version, _RECIPE_KEY) := by
    intro hx
    have h2 : _VARMAP_KEY = _RECIPE_KEY := congrArg Prod.snd hx
    exact absurd h2 (by decide)
  have kPR : ((p.version, _PORTMAP_KEY) : Int × Str) ≠ (p.version, _RECIPE_KEY) := by
    intro hx
    have h2 : _PORTMAP_KEY = _RECIPE_KEY := congrArg Prod.snd hx
    exact absurd h2 (by decide)
  have kVP : ((p.version, _VARMAP_KEY) : Int × Str) ≠ (p.version, _PORTMAP_KEY) := by
    intro hx
    have h2 : _VARMAP_KEY = _PORTMAP_KEY := congrArg Prod.snd hx
    exact absurd h2 (by decide)
  by_cases h : lookupA p.version st.version_to_pipeline = some p
  · have hcall : created_pipeline st cell p = (st, []) :=
      created_pipeline_noop st cell p h
    have hsecond : created_pipeline (created_pipeline st cell p).1 cell p =
        ((created_pipeline st cell p).1, []) :=
      created_pipeline_noop _ cell p (by rw [hcall]; exact h)
    refine ⟨fun _ => hcall, fun hn => absurd h hn, hsecond, ?_⟩
    intro hnd
    have h2 : (created_pipeline (created_pipeline st cell p).1 cell p).1 =
        (created_pipeline st cell p).1 := by rw [hsecond]
    rw [h2, hcall]
    exact length_filter_key_of_lookup hnd h
  · have hcall := created_pipeline_proceed st cell p h
    have hst : (created_pipeline st cell p).1 = { st with
        cell_to_version := insertA cell p.version st.cell_to_version,
        version_to_pipeline := insertA p.version p st.version_to_pipeline,
        cell_to_pipeline := insertA cell p st.cell_to_pipeline,
        annotations :=
          insertA (p.version, _VARMAP_KEY) (_build_annotation_varmap p.var_map)
            (insertA (p.version, _PORTMAP_KEY) (_build_annotation_portmap p.port_map)
              (insertA (p.version, _RECIPE_KEY) (_build_annotation_recipe p.recipe)
                st.annotations)) } := congrArg Prod.fst hcall
    have hlook : lookupA p.version (created_pipeline st cell p).1.version_to_pipeline =
        some p := by
      rw [hst]
      simp [lookupA_insertA]
    have hsecond : created_pipeline (created_pipeline st cell p).1 cell p =
        ((created_pipeline st cell p).1, []) :=
      created_pipeline_noop _ cell p hlook
    refine ⟨fun hx => absurd hx h, fun _ => ?_, hsecond, ?_⟩
    · rw [hst]
      refine ⟨by simp [lookupA_insertA], by simp [lookupA_insertA],
        by simp [lookupA_insertA], ?_, ?_, ?_⟩
      · show lookupA (p.version, _RECIPE_KEY)
          (insertA (p.version, _VARMAP_KEY) (_build_annotation_varmap p.var_map)
            (insertA (p.version, _PORTMAP_KEY) (_build_annotation_portmap p.port_map)
              (insertA (p.version, _RECIPE_KEY) (_build_annotation_recipe p.recipe)
                st.annotations))) = some (_build_annotation_recipe p.recipe)
        rw [lookupA_insertA, if_neg kVR, lookupA_insertA, if_neg kPR,
          lookupA_insertA, if_pos rfl]
      · show lookupA (p.version, _PORTMAP_KEY)
          (insertA (p.version, _VARMAP_KEY) (_build_annotation_varmap p.var_map)
            (insertA (p.version, _PORTMAP_KEY) (_build_annotation_portmap p.port_map)
              (insertA (p.version, _RECIPE_KEY) (_build_annotation_recipe p.recipe)
                st.annotations))) = some (_build_annotation_portmap p.port_map)
        rw [lookupA_insertA, if_neg kVP, lookupA_insertA, if_pos rfl]
      · show lookupA (p.version, _VARMAP_KEY)
          (insertA (p.version, _VARMAP_KEY) (_build_annotation_varmap p.var_map)
            (insertA (p.version, _PORTMAP_KEY) (_build_annotation_portmap p.port_map)
              (insertA (p.version, _RECIPE_KEY) (_build_annotation_recipe p.recipe)
                st.annotations))) = some (_build_annotation_varmap p.var_map)
        rw [lookupA_insertA, if_pos rfl]
    · intro hnd
      have h2 : (created_pipeline (created_pipeline st cell p).1 cell p).1 =
          (created_pipeline st cell p).1 := by rw [hsecond]
      have hl2 : lookupA p.version (insertA p.version p st.version_to_pipeline) =
          some p := by simp [lookupA_insertA]
      rw [h2, hst]
      exact length_filter_key_of_lookup (nodup_keys_insertA p.version p _ hnd) hl2

/-- Witness for C7 (amended) at concrete inputs: recording `pipe5` into
the empty store via cell 0, then re-recording it. -/
theorem c7_created_pipeline_amended_witness :
    (lookupA 0 (created_pipeline emptyVState 0 pipe5).1.cell_to_version =
      some pipe5.version ∧
     lookupA pipe5.version (created_pipeline emptyVState 0 pipe5).1.version_to_pipeline =
      some pipe5 ∧
     lookupA 0 (created_pipeline emptyVState 0 pipe5).1.cell_to_pipeline = some pipe5 ∧
     lookupA (pipe5.version, _RECIPE_KEY)
        (created_pipeline emptyVState 0 pipe5).1.annotations =
      some (_build_annotation_recipe pipe5.recipe) ∧
     lookupA (pipe5.version, _PORTMAP_KEY)
        (created_pipeline emptyVState 0 pipe5).1.annotations =
      some (_build_annotation_portmap pipe5.port_map) ∧
     lookupA (pipe5.version, _VARMAP_KEY)
        (created_pipeline emptyVState 0 pipe5).1.annotations =
      some (_build_annotation_varmap pipe5.var_map)) ∧
    ((created_pipeline (created_pipeline emptyVState 0 pipe5).1 0 pipe5).1.version_to_pipeline.filter
      (fun vp => vp.1 = pipe5.version)).length = 1 :=
  ⟨(c7_created_pipeline_amended emptyVState 0 pipe5).2.1 (by decide),
   (c7_created_pipeline_amended emptyVState 0 pipe5).2.2.2 (by decide)⟩

/-! ## Claim C9: `VistrailManager.set_controller` -/

/-- A trivial `VistrailData` constructor for concrete manager scenarios. -/
def mkTrivialData : Nat → VState := fun _ => emptyVState

/-- A manager that knows controllers 1 and 2, with 2 current. -/
def mstTwoDocs : MState :=
  { vistrails := [(1, emptyVState), (2, emptyVState)], current := some 2 }

/-- Claim **C9 (counterexample)** — controller 1 already has an entry, yet
`set_controller(1)` is not a no-op: the code only short-circuits on the
CURRENT controller, so it re-marks 1 current and emits a
`dat_controller_changed` notification (with `new=False`). -/
theorem c9_counterexample_not_noop :
    (lookupA 1 mstTwoDocs.vistrails).isSome = true ∧
    set_controller mkTrivialData mstTwoDocs 1 ≠ (mstTwoDocs, []) := by
  decide

/-- Claim **C9 (amended)** — `set_controller` is a no-op exactly when the
controller is already the CURRENT one (not merely known); otherwise it
marks the controller current, constructs the `VistrailData` pair only if
absent, and emits exactly one `dat_controller_changed` notification
whose `new` flag is true exactly when the pair was newly created. -/
theorem c9_set_controller_amended (mkData : Nat → VState) (m : MState)
    (controller : Nat) :
    (some controller = m.current →
      set_controller mkData m controller = (m, [])) ∧
    (some controller ≠ m.current →
      (set_controller mkData m controller).1.current = some controller ∧
      (set_controller mkData m controller).2 =
        [MEvent.ctrlChanged controller (lookupA controller m.vistrails).isNone] ∧
      ((lookupA controller m.vistrails).isSome →
        (set_controller mkData m controller).1.vistrails = m.vistrails) ∧
      (lookupA controller m.vistrails = none →
        (set_controller mkData m controller).1.vistrails =
          insertA controller (mkData controller) m.vistrails)) := by
  by_cases hc : some controller = m.current
  · refine ⟨fun _ => ?_, fun hn => absurd hc hn⟩
    simp [set_controller, hc]
  · refine ⟨fun hx => absurd hx hc, fun _ => ?_⟩
    cases hl : lookupA controller m.vistrails with
    | some d =>
      refine ⟨?_, ?_, fun _ => ?_, fun h2 => nomatch h2⟩ <;>
        simp [set_controller, hc, hl]
    | none =>
      refine ⟨?_, ?_, fun h2 => by simp [hl] at h2, fun _ => ?_⟩ <;>
        simp [set_controller, hc, hl]

/-- Witness for C9 (amended) at concrete inputs: activating the current
controller 2 is a no-op; activating the known controller 1 re-marks it
current with a `new=False` notification and no construction. -/
theorem c9_set_controller_amended_witness :
    (set_controller mkTrivialData mstTwoDocs 2 = (mstTwoDocs, [])) ∧
    ((set_controller mkTrivialData mstTwoDocs 1).1.current = some 1 ∧
     (set_controller mkTrivialData mstTwoDocs 1).2 =
       [MEvent.ctrlChanged 1 (lookupA 1 mstTwoDocs.vistrails).isNone] ∧
     ((lookupA 1 mstTwoDocs.vistrails).isSome →
       (set_controller mkTrivialData mstTwoDocs 1).1.vistrails =
         mstTwoDocs.vistrails) ∧
     (lookupA 1 mstTwoDocs.vistrails = none →
       (set_controller mkTrivialData mstTwoDocs 1).1.vistrails =
         insertA 1 (mkTrivialData 1) mstTwoDocs.vistrails)) :=
  ⟨(c9_set_controller_amended mkTrivialData mstTwoDocs 2).1 (by decide),
   (c9_set_controller_amended mkTrivialData mstTwoDocs 1).2 (by decide)⟩

/-! ## Claim C5: `remove_variable` cascade -/

theorem lookupA_of_mem_nodup {α β : Type} [DecidableEq α] {m : List (α × β)}
    {k : α} {v : β} (hnd : (m.map Prod.fst).Nodup) (h : (k, v) ∈ m) :
    lookupA k m = some v := by
  induction m with
  | nil => simp at h
  | cons p rest ih =>
    obtain ⟨pk, pv⟩ := p
    rw [List.map_cons] at hnd
    rcases List.nodup_cons.mp hnd with ⟨hpk, hrest⟩
    rcases List.mem_cons.mp h with heq | hmem
    · obtain ⟨rfl, rfl⟩ : k = pk ∧ v = pv := by
        have h1 := congrArg Prod.fst heq
        have h2 := congrArg Prod.snd heq
        exact ⟨h1, h2⟩
      simp [lookupA]
    · have hk : pk ≠ k := by
        rintro rfl
        exact hpk (List.mem_map.mpr ⟨(pk, v), hmem, rfl⟩)
      simp [lookupA, hk, ih hrest hmem]

theorem lookupA_foldl_eraseA {α β : Type} [DecidableEq α] (ks : List α) :
    ∀ (m : List (α × β)) (k : α),
      lookupA k (ks.foldl (fun m' v => eraseA v m') m) =
        if k ∈ ks then none else lookupA k m := by
  induction ks with
  | nil => intro m k; simp
  | cons v vs ih =>
    intro m k
    rw [List.foldl_cons, ih (eraseA v m) k, lookupA_eraseA]
    by_cases h1 : k ∈ vs
    · simp [h1]
    · by_cases h2 : v = k
      · simp [h1, h2]
      · have h3 : k ∉ v :: vs := by
          intro hx
          rcases List.mem_cons.mp hx with rfl | hx
          · exact h2 rfl
          · exact h1 hx
        simp [h1, h2, h3]

theorem clearVersionAnnotations_none (v : Int) (ann : List ((Int × Str) × Str))
    (x : Int × Str) (h : lookupA x ann = none) :
    lookupA x (clearVersionAnnotations v ann) = none := by
  unfold clearVersionAnnotations set_action_annotation
  simp only [lookupA_eraseA, h]
  split <;> [rfl; (split <;> [rfl; (split <;> rfl)])]

theorem clearVersionAnnotations_clears (v : Int) (ann : List ((Int × Str) × Str))
    (key : Str) (hkey : key ∈ [_RECIPE_KEY, _PORTMAP_KEY, _VARMAP_KEY]) :
    lookupA (v, key) (clearVersionAnnotations v ann) = none := by
  have k1 : _VARMAP_KEY ≠ _RECIPE_KEY := by decide
  have k2 : _VARMAP_KEY ≠ _PORTMAP_KEY := by decide
  have k3 : _PORTMAP_KEY ≠ _RECIPE_KEY := by decide
  unfold clearVersionAnnotations set_action_annotation
  rcases List.mem_cons.mp hkey with rfl | hkey
  · rw [lookupA_eraseA, if_neg (fun hx => k1 (congrArg Prod.snd hx)),
      lookupA_eraseA, if_neg (fun hx => k3 (congrArg Prod.snd hx)),
      lookupA_eraseA, if_pos rfl]
  rcases List.mem_cons.mp hkey with rfl | hkey
  · rw [lookupA_eraseA, if_neg (fun hx => k2 (congrArg Prod.snd hx)),
      lookupA_eraseA, if_pos rfl]
  rcases List.mem_cons.mp hkey with rfl | hkey
  · rw [lookupA_eraseA, if_pos rfl]
  · simp at hkey

theorem lookupA_foldl_clear_none (vers : List Int) :
    ∀ (ann : List ((Int × Str) × Str)) (x : Int × Str), lookupA x ann = none →
      lookupA x (vers.foldl (fun a v => clearVersionAnnotations v a) ann) = none := by
  induction vers with
  | nil => intro ann x h; exact h
  | cons v vs ih =>
    intro ann x h
    rw [List.foldl_cons]
    exact ih _ _ (clearVersionAnnotations_none v ann x h)

theorem lookupA_foldl_clear (vers : List Int) :
    ∀ (ann : List ((Int × Str) × Str)) (ver : Int) (key : Str), ver ∈ vers →
      key ∈ [_RECIPE_KEY, _PORTMAP_KEY, _VARMAP_KEY] →
      lookupA (ver, key)
        (vers.foldl (fun a v => clearVersionAnnotations v a) ann) = none := by
  induction vers with
  | nil => intro _ _ _ h _; simp at h
  | cons v vs ih =>
    intro ann ver key hver hkey
    rw [List.foldl_cons]
    rcases List.mem_cons.mp hver with rfl | hver
    · exact lookupA_foldl_clear_none vs _ _
        (clearVersionAnnotations_clears ver ann key hkey)
    · exact ih _ ver key hver hkey

theorem mem_versionsUsing_iff (st : VState) (varname : Str)
    (hvk : ∀ vp ∈ st.version_to_pipeline, vp.2.version = vp.1)
    (hnd : (st.version_to_pipeline.map Prod.fst).Nodup) (ver : Int) :
    ver ∈ versionsUsing st varname ↔
      ∃ pl, lookupA ver st.version_to_pipeline = some pl ∧
        recipeRefers pl.recipe varname = true := by
  unfold versionsUsing
  rw [List.mem_dedup]
  constructor
  · intro h
    rcases List.mem_map.mp h with ⟨vp, hvp, hver⟩
    rcases List.mem_filter.mp hvp with ⟨hmem, href⟩
    have hkey : vp.2.version = vp.1 := hvk vp hmem
    refine ⟨vp.2, ?_, by simpa using href⟩
    rw [← hver, hkey]
    exact lookupA_of_mem_nodup hnd (by simpa using hmem)
  · rintro ⟨pl, hl, href⟩
    have hmem : (ver, pl) ∈ st.version_to_pipeline := lookupA_some_mem hl
    refine List.mem_map.mpr ⟨(ver, pl), List.mem_filter.mpr ⟨hmem, by simpa using href⟩, ?_⟩
    exact hvk (ver, pl) hmem

theorem versionsUsing_length (st : VState) (varname : Str)
    (hvk : ∀ vp ∈ st.version_to_pipeline, vp.2.version = vp.1)
    (hnd : (st.version_to_pipeline.map Prod.fst).Nodup) :
    (versionsUsing st varname).length =
      (st.version_to_pipeline.filter
        (fun vp => recipeRefers vp.2.recipe varname)).length := by
  unfold versionsUsing
  have hmapeq : (st.version_to_pipeline.filter
        (fun vp => recipeRefers vp.2.recipe varname)).map (fun vp => vp.2.version) =
      (st.version_to_pipeline.filter
        (fun vp => recipeRefers vp.2.recipe varname)).map Prod.fst :=
    List.map_congr_left (fun vp hvp => hvk vp (List.mem_of_mem_filter hvp))
  rw [hmapeq]
  have hsub : List.Sublist
      ((st.version_to_pipeline.filter
        (fun vp => recipeRefers vp.2.recipe varname)).map Prod.fst)
      (st.version_to_pipeline.map Prod.fst) :=
    List.Sublist.map Prod.fst (List.filter_sublist _)
  rw [List.dedup_eq_self.mpr (hnd.sublist hsub), List.length_map]

/-- The cells whose version is being dropped (the `cell_to_remove` list
of `_remove_variable`). -/
def cellsToRemove (st : VState) (varname : Str) : List CellInfo :=
  (st.cell_to_version.filter (fun cv => cv.2 ∈ versionsUsing st varname)).map
    (fun cv => cv.1)

/-- The store state after `remove_variable(varname)` succeeds. -/
def removedState (st : VState) (varname : Str) : VState where
  _variables := eraseA varname st._variables
  cell_to_version :=
    (cellsToRemove st varname).foldl (fun m c => eraseA c m) st.cell_to_version
  version_to_pipeline :=
    (versionsUsing st varname).foldl (fun m ver => eraseA ver m)
      st.version_to_pipeline
  cell_to_pipeline :=
    (cellsToRemove st varname).foldl (fun m c => eraseA c m) st.cell_to_pipeline
  annotations :=
    (versionsUsing st varname).foldl (fun ann ver => clearVersionAnnotations ver ann)
      st.annotations

/-- Characterization of a successful `remove_variable` run. -/
theorem remove_variable_spec (st : VState) (varname : Str) (v : VarInfo)
    (hv : lookupA varname st._variables = some v) :
    remove_variable st varname =
      { st := removedState st varname,
        trace := [(Event.notifRemoved varname none, st)] ++
          (if versionsUsing st varname ≠ [] then
            [(Event.warnUsedPipelines varname (versionsUsing st varname).length, st)]
          else []) ++
          [(Event.extVariableRemove varname, removedState st varname)],
        err := none } := by
  have hv' : lookupA varname (_remove_variable st varname none).1._variables =
      some v := hv
  simp only [remove_variable]
  rw [hv']
  rfl

/-- Claim **C5** — removing a registered variable that is referenced by `n ≥ 1`
stored pipeline records drops exactly the referencing records from the
version map, clears all three annotation kinds for each affected
version, removes every cell entry pointing at an affected version (from
both cell maps), warns with the count `n`, and emits exactly one
`dat_removed_variable` notification, with `renamed_to = None`. -/
theorem c5_remove_variable_cascade (st : VState) (varname : Str) (n : Nat)
    (hreg : (lookupA varname st._variables).isSome)
    (hvk : ∀ vp ∈ st.version_to_pipeline, vp.2.version = vp.1)
    (hvnd : (st.version_to_pipeline.map Prod.fst).Nodup)
    (hn : n = (st.version_to_pipeline.filter
      (fun vp => recipeRefers vp.2.recipe varname)).length)
    (hn1 : 1 ≤ n) :
    (remove_variable st varname).err = none ∧
    (∀ ver pl,
      lookupA ver (remove_variable st varname).st.version_to_pipeline = some pl ↔
      (lookupA ver st.version_to_pipeline = some pl ∧
        recipeRefers pl.recipe varname = false)) ∧
    (∀ ver pl, lookupA ver st.version_to_pipeline = some pl →
      recipeRefers pl.recipe varname = true →
      lookupA (ver, _RECIPE_KEY) (remove_variable st varname).st.annotations = none ∧
      lookupA (ver, _PORTMAP_KEY) (remove_variable st varname).st.annotations = none ∧
      lookupA (ver, _VARMAP_KEY) (remove_variable st varname).st.annotations = none) ∧
    (∀ cell ver, lookupA cell st.cell_to_version = some ver →
      ver ∈ versionsUsing st varname →
      lookupA cell (remove_variable st varname).st.cell_to_version = none ∧
      lookupA cell (remove_variable st varname).st.cell_to_pipeline = none) ∧
    Event.warnUsedPipelines varname n ∈
      (remove_variable st varname).trace.map Prod.fst ∧
    ((remove_variable st varname).trace.map Prod.fst).filter Event.isNotif =
      [Event.notifRemoved varname none] := by
  obtain ⟨v, hv⟩ := Option.isSome_iff_exists.mp hreg
  have hspec := remove_variable_spec st varname v hv
  have hlen : (versionsUsing st varname).length = n := by
    rw [versionsUsing_length st varname hvk hvnd, hn]
  have hne : versionsUsing st varname ≠ [] := by
    intro hx
    rw [hx] at hlen
    simp at hlen
    omega
  refine ⟨?_, ?_, ?_, ?_, ?_, ?_⟩
  · rw [hspec]
  · intro ver pl
    rw [hspec]
    show lookupA ver ((versionsUsing st varname).foldl (fun m w => eraseA w m)
      st.version_to_pipeline) = some pl ↔ _
    rw [lookupA_foldl_eraseA]
    constructor
    · intro h
      by_cases hmem : ver ∈ versionsUsing st varname
      · rw [if_pos hmem] at h; cases h
      · rw [if_neg hmem] at h
        refine ⟨h, ?_⟩
        cases hb : recipeRefers pl.recipe varname with
        | false => rfl
        | true =>
          exact absurd
            ((mem_versionsUsing_iff st varname hvk hvnd ver).mpr ⟨pl, h, hb⟩) hmem
    · rintro ⟨hl, hfalse⟩
      have hmem : ver ∉ versionsUsing st varname := by
        intro hx
        rcases (mem_versionsUsing_iff st varname hvk hvnd ver).mp hx with
          ⟨pl', hl', hr'⟩
        rw [hl] at hl'
        obtain rfl : pl = pl' := by injection hl'
        rw [hfalse] at hr'
        cases hr'
      rw [if_neg hmem]
      exact hl
  · intro ver pl hl href
    have hmem : ver ∈ versionsUsing st varname :=
      (mem_versionsUsing_iff st varname hvk hvnd ver).mpr ⟨pl, hl, href⟩
    rw [hspec]
    exact ⟨lookupA_foldl_clear _ _ _ _ hmem (by decide),
      lookupA_foldl_clear _ _ _ _ hmem (by decide),
      lookupA_foldl_clear _ _ _ _ hmem (by decide)⟩
  · intro cell ver hcv hmem
    have hcell : cell ∈ cellsToRemove st varname := by
      unfold cellsToRemove
      exact List.mem_map.mpr ⟨(cell, ver),
        List.mem_filter.mpr ⟨lookupA_some_mem hcv, by simpa using hmem⟩, rfl⟩
    rw [hspec]
    constructor
    · show lookupA cell ((cellsToRemove st varname).foldl (fun m c => eraseA c m)
        st.cell_to_version) = none
      rw [lookupA_foldl_eraseA, if_pos hcell]
    · show lookupA cell ((cellsToRemove st varname).foldl (fun m c => eraseA c m)
        st.cell_to_pipeline) = none
      rw [lookupA_foldl_eraseA, if_pos hcell]
  · rw [hspec]
    simp [if_pos hne, hlen]
  · rw [hspec]
    simp [if_pos hne, Event.isNotif]

/-- Witness for C5 at a concrete store: `stPipe5` has variable `"temp"`
referenced by the single record at version 5 shown in cell 0. -/
theorem c5_remove_variable_cascade_witness :
    (remove_variable stPipe5 "temp".data).err = none ∧
    lookupA (5, _RECIPE_KEY) (remove_variable stPipe5 "temp".data).st.annotations =
      none ∧
    lookupA 0 (remove_variable stPipe5 "temp".data).st.cell_to_version = none ∧
    Event.warnUsedPipelines "temp".data 1 ∈
      (remove_variable stPipe5 "temp".data).trace.map Prod.fst ∧
    ((remove_variable stPipe5 "temp".data).trace.map Prod.fst).filter Event.isNotif =
      [Event.notifRemoved "temp".data none] := by
  have h := c5_remove_variable_cascade stPipe5 "temp".data 1 (by decide) (by decide)
    (by decide) (by decide) (by decide)
  exact ⟨h.1, (h.2.2.1 5 pipe5 (by decide) (by decide)).1,
    (h.2.2.2.1 0 5 (by decide) (by decide)).1, h.2.2.2.2.1, h.2.2.2.2.2⟩

/-! ## Claim C10: the cell-map consistency invariant -/

/-- The implicit invariant: both cell maps always hold exactly the same
cells, and the pipeline a cell maps to has exactly the version the cell
maps to. -/
def CellInv (st : VState) : Prop :=
  (∀ c : CellInfo, (lookupA c st.cell_to_version).isSome =
    (lookupA c st.cell_to_pipeline).isSome) ∧
  (∀ c pl, lookupA c st.cell_to_pipeline = some pl →
    lookupA c st.cell_to_version = some pl.version)

theorem CellInv_congr {s t : VState}
    (h1 : s.cell_to_version = t.cell_to_version)
    (h2 : s.cell_to_pipeline = t.cell_to_pipeline) (h : CellInv t) : CellInv s := by
  constructor
  · intro c
    rw [h1, h2]
    exact h.1 c
  · intro c pl hc
    rw [h2] at hc
    rw [h1]
    exact h.2 c pl hc

theorem loadRecipes_cells (plots : List Str) : ∀ (anns : List Annot) (st : VState),
    (loadRecipes plots anns st).cell_to_version = st.cell_to_version ∧
    (loadRecipes plots anns st).cell_to_pipeline = st.cell_to_pipeline := by
  intro anns
  induction anns with
  | nil => intro st; exact ⟨rfl, rfl⟩
  | cons an rest ih =>
    intro st
    simp only [loadRecipes]
    constructor
    · rw [(ih _).1]
      split
      · split <;> rfl
      · rfl
    · rw [(ih _).2]
      split
      · split <;> rfl
      · rfl

theorem loadPortmaps_cells : ∀ (anns : List Annot) (st : VState),
    (loadPortmaps anns st).st.cell_to_version = st.cell_to_version ∧
    (loadPortmaps anns st).st.cell_to_pipeline = st.cell_to_pipeline := by
  intro anns
  induction anns with
  | nil => intro st; exact ⟨rfl, rfl⟩
  | cons an rest ih =>
    intro st
    simp only [loadPortmaps]
    split
    · split
      · exact ⟨rfl, rfl⟩
      · split
        · exact ⟨(ih _).1, (ih _).2⟩
        · exact ih st
    · exact ih st

theorem loadVarmaps_cells : ∀ (anns : List Annot) (st : VState),
    (loadVarmaps anns st).st.cell_to_version = st.cell_to_version ∧
    (loadVarmaps anns st).st.cell_to_pipeline = st.cell_to_pipeline := by
  intro anns
  induction anns with
  | nil => intro st; exact ⟨rfl, rfl⟩
  | cons an rest ih =>
    intro st
    simp only [loadVarmaps]
    split
    · split
      · exact ⟨rfl, rfl⟩
      · split
        · exact ⟨(ih _).1, (ih _).2⟩
        · exact ih st
    · exact ih st

theorem remove_variable_err_cells (st : VState) (varname : Str)
    (hv : lookupA varname st._variables = none) :
    (remove_variable st varname).st.cell_to_version =
      (cellsToRemove st varname).foldl (fun m c => eraseA c m) st.cell_to_version ∧
    (remove_variable st varname).st.cell_to_pipeline =
      (cellsToRemove st varname).foldl (fun m c => eraseA c m) st.cell_to_pipeline := by
  have hv' : lookupA varname (_remove_variable st varname none).1._variables =
      none := hv
  simp only [remove_variable]
  rw [hv']
  exact ⟨rfl, rfl⟩

theorem remove_variable_cell_lookups (st : VState) (varname : Str) :
    (∀ c, lookupA c (remove_variable st varname).st.cell_to_version =
      if c ∈ cellsToRemove st varname then none else lookupA c st.cell_to_version) ∧
    (∀ c, lookupA c (remove_variable st varname).st.cell_to_pipeline =
      if c ∈ cellsToRemove st varname then none else lookupA c st.cell_to_pipeline) := by
  cases h : lookupA varname st._variables with
  | none =>
    rcases remove_variable_err_cells st varname h with ⟨h1, h2⟩
    exact ⟨fun c => by rw [h1, lookupA_foldl_eraseA],
      fun c => by rw [h2, lookupA_foldl_eraseA]⟩
  | some v =>
    rw [remove_variable_spec st varname v h]
    constructor
    · intro c
      show lookupA c ((cellsToRemove st varname).foldl (fun m c => eraseA c m)
        st.cell_to_version) = _
      rw [lookupA_foldl_eraseA]
    · intro c
      show lookupA c ((cellsToRemove st varname).foldl (fun m c => eraseA c m)
        st.cell_to_pipeline) = _
      rw [lookupA_foldl_eraseA]

/-- Claim **C10** — invariant of the store preserved by every operation (the
load, `new_variable`, `remove_variable`, `rename_variable`,
`created_pipeline`): `cell_to_version` and `cell_to_pipeline` always
hold exactly the same cells, and the record a cell maps to carries
exactly the version the cell maps to. -/
theorem c10_cell_consistency :
    (∀ plots initVars anns, CellInv (loadVistrailData plots initVars anns).st) ∧
    (∀ st varname src, CellInv st → CellInv (new_variable st varname src).st) ∧
    (∀ st varname, CellInv st → CellInv (remove_variable st varname).st) ∧
    (∀ st oldName newName, CellInv st →
      CellInv (rename_variable st oldName newName).st) ∧
    (∀ st cell p, CellInv st → CellInv (created_pipeline st cell p).1) := by
  refine ⟨?_, ?_, ?_, ?_, ?_⟩
  · intro plots initVars anns
    have h0 : (loadVistrailData plots initVars anns).st.cell_to_version = [] ∧
        (loadVistrailData plots initVars anns).st.cell_to_pipeline = [] := by
      simp only [loadVistrailData]
      split
      · exact ⟨by rw [(loadPortmaps_cells _ _).1, (loadRecipes_cells _ _ _).1],
          by rw [(loadPortmaps_cells _ _).2, (loadRecipes_cells _ _ _).2]⟩
      · exact ⟨by rw [(loadVarmaps_cells _ _).1, (loadPortmaps_cells _ _).1,
            (loadRecipes_cells _ _ _).1],
          by rw [(loadVarmaps_cells _ _).2, (loadPortmaps_cells _ _).2,
            (loadRecipes_cells _ _ _).2]⟩
    refine ⟨fun c => by rw [h0.1, h0.2]; rfl, fun c pl hc => ?_⟩
    rw [h0.2] at hc
    exact nomatch hc
  · intro st varname src hinv
    cases h : lookupA varname st._variables with
    | some v =>
      exact CellInv_congr (by simp [new_variable, h]) (by simp [new_variable, h]) hinv
    | none =>
      exact CellInv_congr (by simp [new_variable, h, _add_variable])
        (by simp [new_variable, h, _add_variable]) hinv
  · intro st varname hinv
    rcases remove_variable_cell_lookups st varname with ⟨h1, h2⟩
    constructor
    · intro c
      rw [h1 c, h2 c]
      by_cases hc : c ∈ cellsToRemove st varname
      · simp [hc]
      · simp only [if_neg hc]
        exact hinv.1 c
    · intro c pl hc
      rw [h2 c] at hc
      rw [h1 c]
      by_cases hmem : c ∈ cellsToRemove st varname
      · rw [if_pos hmem] at hc; cases hc
      · rw [if_neg hmem] at hc
        rw [if_neg hmem]
        exact hinv.2 c pl hc
  · intro st oldName newName hinv
    cases h : lookupA oldName st._variables with
    | none =>
      exact CellInv_congr (by simp [rename_variable, _remove_variable, h])
        (by simp [rename_variable, _remove_variable, h]) hinv
    | some v =>
      exact CellInv_congr
        (by simp [rename_variable, _remove_variable, _add_variable, h])
        (by simp [rename_variable, _remove_variable, _add_variable, h]) hinv
  · intro st cell p hinv
    by_cases h : lookupA p.version st.version_to_pipeline = some p
    · have hc := created_pipeline_noop st cell p h
      exact CellInv_congr (by rw [hc]) (by rw [hc]) hinv
    · have hst : (created_pipeline st cell p).1 = _ :=
        congrArg Prod.fst (created_pipeline_proceed st cell p h)
      constructor
      · intro c
        rw [hst]
        show (lookupA c (insertA cell p.version st.cell_to_version)).isSome =
          (lookupA c (insertA cell p st.cell_to_pipeline)).isSome
        rw [lookupA_insertA, lookupA_insertA]
        by_cases hc : cell = c
        · simp [hc]
        · simp only [if_neg hc]
          exact hinv.1 c
      · intro c pl hc
        rw [hst] at hc ⊢
        show lookupA c (insertA cell p.version st.cell_to_version) = some pl.version
        rw [lookupA_insertA]
        have hc' : lookupA c (insertA cell p st.cell_to_pipeline) = some pl := hc
        rw [lookupA_insertA] at hc'
        by_cases hcc : cell = c
        · rw [if_pos hcc] at hc'
          rw [if_pos hcc]
          obtain rfl : p = pl := by injection hc'
          rfl
        · rw [if_neg hcc] at hc'
          rw [if_neg hcc]
          exact hinv.2 c pl hc'

/-- The state `stOneVar` trivially satisfies the invariant (no cells). -/
theorem cellInv_stOneVar : CellInv stOneVar :=
  ⟨fun _ => rfl, fun _ _ hc => nomatch hc⟩

/-- Witness for C10: the invariant after each operation runs on concrete
stores. -/
theorem c10_cell_consistency_witness :
    CellInv (loadVistrailData [] [] []).st ∧
    CellInv (new_variable stOneVar "x".data vPres).st ∧
    CellInv (remove_variable stOneVar "temp".data).st ∧
    CellInv (rename_variable stOneVar "temp".data "t2".data).st ∧
    CellInv (created_pipeline stOneVar 0 pipe5).1 :=
  ⟨c10_cell_consistency.1 [] [] [],
   c10_cell_consistency.2.1 stOneVar "x".data vPres cellInv_stOneVar,
   c10_cell_consistency.2.2.1 stOneVar "temp".data cellInv_stOneVar,
   c10_cell_consistency.2.2.2.1 stOneVar "temp".data "t2".data cellInv_stOneVar,
   c10_cell_consistency.2.2.2.2 stOneVar 0 pipe5 cellInv_stOneVar⟩
